import Mathlib

/-!
Verification of the SQL-agent query-refinement control loop (`sql_agent.py`)
and the query endpoint's extraction logic (`main.py`).

The control loop is a LangGraph state machine over an append-only message
state.  We embed it shallowly: messages, tool calls and the graph nodes
become Lean structures and functions; the two external collaborators (the
language model and the relational data source) become explicit oracle
parameters, so every run is a pure computation.  The `add_messages` reducer
of LangGraph (append, except that a message whose id equals an existing
message's id replaces it in place) is modelled by `addMessages`.
-/

/-- Message roles, as in the source's system/user/assistant/tool tagging. -/
inductive Role where
  | system
  | user
  | assistant
  | tool
deriving DecidableEq, Repr, Inhabited

/-- A tool invocation request: name, argument mapping, and the correlation
identifier (`tool_call["id"]`) that pairs it with its eventual result
message. -/
structure ToolCall where
  name : String
  args : List (String × String)
  callId : String
deriving DecidableEq, Repr, Inhabited

/-- One conversation message.  `msgId` models the LangChain message `.id`
(the identity used by the `add_messages` reducer); `toolCallId` models
`ToolMessage.tool_call_id`, the correlation identifier on result messages;
`toolCalls` models `AIMessage.tool_calls`. -/
structure Message where
  role : Role
  content : String
  toolCalls : List ToolCall := []
  msgId : Nat := 0
  toolCallId : String := ""
deriving DecidableEq, Repr, Inhabited

/-- A model response: text plus zero or more tool invocation requests. -/
structure LLMResp where
  content : String := ""
  toolCalls : List ToolCall := []
deriving DecidableEq, Repr, Inhabited

/-- The language-model oracle: given the bound tool names, whether a tool
call is forced (`tool_choice="any"`), and the input message list, produce a
response.  A fixed oracle is deterministic, matching the spec's mocked-model
setting. -/
abbrev LLM := List String → Bool → List Message → LLMResp

/-- Modelled from the spec: the relational data source reachable through the
`SQLDatabase` connection.  It is an external collaborator (the `langchain`
toolkit is not part of this repository); per section 6 of the spec it
exposes table listing, schema description and arbitrary query execution.
`exec` is a thin pass-through that may change the source state (the spec
notes the DML prohibition is not enforced programmatically) and returns the
result rows or error text as a string. -/
structure DataSource (σ : Type) where
  dialect : String
  tables : σ → List String
  schemaOf : σ → String → String
  exec : σ → String → σ × String

/-- The graph nodes of `create_sql_agent` (the compiled `StateGraph`). -/
inductive Node where
  | list_tables
  | call_get_schema
  | get_schema
  | generate_query
  | check_query
  | run_query
deriving DecidableEq, Repr

/-- The conversation state owned by the loop: the message list, the data
source's state, and the supply for fresh message identifiers (modelling the
unique ids LangChain assigns to new messages). -/
structure AgentState (σ : Type) where
  messages : List Message
  dbState : σ
  nextId : Nat

/-- One `add_messages` reducer step: a message whose id already occurs
replaces the existing message in place, otherwise it is appended. -/
def addOne (msgs : List Message) (m : Message) : List Message :=
  if msgs.any (fun x => x.msgId == m.msgId) then
    msgs.map (fun x => if x.msgId == m.msgId then m else x)
  else
    msgs ++ [m]

/-- The `add_messages` reducer applied to a node's returned message list. -/
def addMessages (msgs new : List Message) : List Message :=
  new.foldl addOne msgs

/-- The hard-coded tool call of the `list_tables` node (source lines 45-50):
name `sql_db_list_tables`, empty args, id `"abc123"`. -/
def listTablesCall : ToolCall :=
  { name := "sql_db_list_tables", args := [], callId := "abc123" }

/-- Modelled from the spec: the `sql_db_list_tables` toolkit tool's result
content, the table names of the data source (the spec's table-listing
capability; the summary example enumerates each name once, comma
separated). -/
def listTablesContent (ds : DataSource σ) (s : σ) : String :=
  String.intercalate ", " (ds.tables s)

/-- The `list_tables` node (source lines 44-57): appends the synthetic tool
call message, the tool result, and the `"Available tables: ..."` summary. -/
def list_tables (ds : DataSource σ) (st : AgentState σ) : List Message :=
  [ { role := .assistant, content := "", toolCalls := [listTablesCall],
      msgId := st.nextId },
    { role := .tool, content := listTablesContent ds st.dbState,
      toolCallId := "abc123", msgId := st.nextId + 1 },
    { role := .assistant,
      content := "Available tables: " ++ listTablesContent ds st.dbState,
      msgId := st.nextId + 2 } ]

/-- A transient system message (not persisted in the conversation state). -/
def systemMessage (c : String) : Message :=
  { role := .system, content := c }

/-- The fixed part of the generate-query system prompt before the dialect. -/
def genPromptHead : String :=
  "\nYou are an agent designed to interact with a SQL database.\n" ++
  "Given an input question, create a syntactically correct "

/-- The generate-query prompt between the dialect and the DML sentence. -/
def genPromptMid : String :=
  " query to run,\nthen look at the results of the query and return the " ++
  "answer. Unless the user\nspecifies a specific number of examples they " ++
  "wish to obtain, always limit your\nquery to at most 5 results.\n\n" ++
  "You can order the results by a relevant column to return the most " ++
  "interesting\nexamples in the database. Never query for all the columns " ++
  "from a specific table,\nonly ask for the relevant columns given the " ++
  "question.\n\n"

/-- The one sentence of the system prompt that prohibits DML (source line
75); per the spec this prompt text is the only place the prohibition
exists. -/
def dmlProhibitionSentence : String :=
  "DO NOT make any DML statements (INSERT, UPDATE, DELETE, DROP etc.) " ++
  "to the database."

/-- The source's `generate_query_system_prompt` (lines 64-76), an f-string over
the database dialect. -/
def generateQuerySystemPrompt (dialect : String) : String :=
  genPromptHead ++ dialect ++ genPromptMid ++ dmlProhibitionSentence ++ "\n"

/-- The source's `check_query_system_prompt` (lines 87-103), the fixed checklist
the validator model is instructed with. -/
def checkQuerySystemPrompt (dialect : String) : String :=
  "\nYou are a SQL expert with a strong attention to detail.\n" ++
  "Double check the " ++ dialect ++ " query for common mistakes, " ++
  "including:\n- Using NOT IN with NULL values\n" ++
  "- Using UNION when UNION ALL should have been used\n" ++
  "- Using BETWEEN for exclusive ranges\n" ++
  "- Data type mismatch in predicates\n" ++
  "- Properly quoting identifiers\n" ++
  "- Using the correct number of arguments for functions\n" ++
  "- Casting to the correct data type\n" ++
  "- Using the proper columns for joins\n\n" ++
  "If there are any of the above mistakes, rewrite the query. If there " ++
  "are no mistakes,\njust reproduce the original query.\n\n" ++
  "You will call the appropriate tool to execute the query after " ++
  "running this check.\n"

/-- The message list the `generate_query` node hands to the model:
`[system_message] + state["messages"]` (source line 84). -/
def genInput (ds : DataSource σ) (st : AgentState σ) : List Message :=
  systemMessage (generateQuerySystemPrompt ds.dialect) :: st.messages

/-- The `call_get_schema` node (source lines 59-62): the model, bound to the
schema tool with forced tool choice, on the bare conversation state. -/
def call_get_schema (llm : LLM) (st : AgentState σ) : Message :=
  let resp := llm ["sql_db_schema"] true st.messages
  { role := .assistant, content := resp.content, toolCalls := resp.toolCalls,
    msgId := st.nextId }

/-- The `generate_query` node (source lines 78-85): the model, bound to the
query tool without forced choice, on the system prompt plus the state. -/
def generate_query (llm : LLM) (ds : DataSource σ) (st : AgentState σ) :
    Message :=
  let resp := llm ["sql_db_query"] false (genInput ds st)
  { role := .assistant, content := resp.content, toolCalls := resp.toolCalls,
    msgId := st.nextId }

/-- The candidate query text `state["messages"][-1].tool_calls[0]["args"]["query"]`
that `check_query` re-submits (source lines 111-112). -/
def candidateQueryText (st : AgentState σ) : String :=
  ((((st.messages.getLastD default).toolCalls.headD default).args.lookup
      "query").getD "")

/-- The two-message input `check_query` hands to the model (source line
114): its own system prompt and the candidate query text as a user message;
the conversation state itself is not passed. -/
def checkInput (ds : DataSource σ) (st : AgentState σ) : List Message :=
  [systemMessage (checkQuerySystemPrompt ds.dialect),
   { role := .user, content := candidateQueryText st }]

/-- The `check_query` node (source lines 105-117): forced tool choice on the
query tool, and `response.id = state["messages"][-1].id` — the new message
reuses the candidate's message id, so the reducer replaces the candidate. -/
def check_query (llm : LLM) (ds : DataSource σ) (st : AgentState σ) :
    Message :=
  let resp := llm ["sql_db_query"] true (checkInput ds st)
  { role := .assistant, content := resp.content, toolCalls := resp.toolCalls,
    msgId := (st.messages.getLastD default).msgId }

/-- Modelled from the spec: execution of one registered toolkit tool by a
`ToolNode`.  `sql_db_query` is the Executor, a thin pass-through to
`DataSource.exec` with no statement-kind check (spec section 4.2);
`sql_db_schema` and `sql_db_list_tables` are read-only lookups; a call to a
tool that is not registered with the node yields an error result message. -/
def execTool (ds : DataSource σ) (registered : List String) (s : σ)
    (tc : ToolCall) : σ × String :=
  if registered.contains tc.name then
    if tc.name == "sql_db_query" then
      ds.exec s ((tc.args.lookup "query").getD "")
    else if tc.name == "sql_db_schema" then
      (s, ds.schemaOf s ((tc.args.lookup "table_names").getD ""))
    else if tc.name == "sql_db_list_tables" then
      (s, listTablesContent ds s)
    else (s, "Error: " ++ tc.name ++ " is not a valid tool.")
  else (s, "Error: " ++ tc.name ++ " is not a valid tool.")

/-- Modelled from the spec: a LangGraph `ToolNode` run over the tool calls
of the last message — one tool-result message per tool call, in order, each
stamped with the call's correlation identifier. -/
def toolNode (ds : DataSource σ) (registered : List String) :
    List ToolCall → σ → Nat → List Message × σ
  | [], s, _ => ([], s)
  | tc :: tcs, s, nid =>
      let r := execTool ds registered s tc
      let m : Message :=
        { role := .tool, content := r.2, toolCallId := tc.callId,
          msgId := nid }
      let rest := toolNode ds registered tcs r.1 (nid + 1)
      (m :: rest.1, rest.2)

/-- The router `should_continue` (source lines 119-125): `END` (here `none`) when the
last message has no tool calls, otherwise route to `check_query`. -/
def should_continue (st : AgentState σ) : Option Node :=
  if (st.messages.getLastD default).toolCalls.isEmpty then none
  else some .check_query

/-- Observable events of a run: a model invocation (with the bound tools,
the forced flag, the exact input message list and the response), or the
execution of one tool call. -/
inductive Event where
  | modelCall (tools : List String) (forced : Bool) (input : List Message)
      (resp : LLMResp)
  | toolExec (call : ToolCall)
deriving DecidableEq, Repr

/-- State after the `list_tables` node and the reducer. -/
def stListTables (ds : DataSource σ) (st : AgentState σ) : AgentState σ :=
  { messages := addMessages st.messages (list_tables ds st),
    dbState := st.dbState, nextId := st.nextId + 3 }

/-- State after the `call_get_schema` node and the reducer. -/
def stCallGetSchema (llm : LLM) (st : AgentState σ) : AgentState σ :=
  { messages := addMessages st.messages [call_get_schema llm st],
    dbState := st.dbState, nextId := st.nextId + 1 }

/-- State after the `get_schema` `ToolNode` and the reducer. -/
def stGetSchema (ds : DataSource σ) (st : AgentState σ) : AgentState σ :=
  { messages := addMessages st.messages
      (toolNode ds ["sql_db_schema"] (st.messages.getLastD default).toolCalls
        st.dbState st.nextId).1,
    dbState := (toolNode ds ["sql_db_schema"]
      (st.messages.getLastD default).toolCalls st.dbState st.nextId).2,
    nextId := st.nextId + (st.messages.getLastD default).toolCalls.length }

/-- State after the `generate_query` node and the reducer. -/
def stGenerate (llm : LLM) (ds : DataSource σ) (st : AgentState σ) :
    AgentState σ :=
  { messages := addMessages st.messages [generate_query llm ds st],
    dbState := st.dbState, nextId := st.nextId + 1 }

/-- State after the `check_query` node and the reducer (no fresh id is
consumed: the node reuses the candidate's message id). -/
def stCheck (llm : LLM) (ds : DataSource σ) (st : AgentState σ) :
    AgentState σ :=
  { messages := addMessages st.messages [check_query llm ds st],
    dbState := st.dbState, nextId := st.nextId }

/-- State after the `run_query` `ToolNode` and the reducer. -/
def stRunQuery (ds : DataSource σ) (st : AgentState σ) : AgentState σ :=
  { messages := addMessages st.messages
      (toolNode ds ["sql_db_query"] (st.messages.getLastD default).toolCalls
        st.dbState st.nextId).1,
    dbState := (toolNode ds ["sql_db_query"]
      (st.messages.getLastD default).toolCalls st.dbState st.nextId).2,
    nextId := st.nextId + (st.messages.getLastD default).toolCalls.length }

/-- The model-call event of `call_get_schema`. -/
def cgsEvent (llm : LLM) (st : AgentState σ) : Event :=
  .modelCall ["sql_db_schema"] true st.messages
    (llm ["sql_db_schema"] true st.messages)

/-- The model-call event of `generate_query`. -/
def genEvent (llm : LLM) (ds : DataSource σ) (st : AgentState σ) : Event :=
  .modelCall ["sql_db_query"] false (genInput ds st)
    (llm ["sql_db_query"] false (genInput ds st))

/-- The model-call event of `check_query`. -/
def checkEvent (llm : LLM) (ds : DataSource σ) (st : AgentState σ) : Event :=
  .modelCall ["sql_db_query"] true (checkInput ds st)
    (llm ["sql_db_query"] true (checkInput ds st))

/-- One transition of the compiled graph: runs the node's function, applies
the `add_messages` reducer, and follows the (conditional) edges of source
lines 136-145.  Returns the new state, the next node (`none` = `END`), and
the events of this step. -/
def step (llm : LLM) (ds : DataSource σ) :
    Node → AgentState σ → AgentState σ × Option Node × List Event
  | .list_tables, st =>
      (stListTables ds st, some .call_get_schema, [.toolExec listTablesCall])
  | .call_get_schema, st =>
      (stCallGetSchema llm st, some .get_schema, [cgsEvent llm st])
  | .get_schema, st =>
      (stGetSchema ds st, some .generate_query,
       (st.messages.getLastD default).toolCalls.map .toolExec)
  | .generate_query, st =>
      (stGenerate llm ds st, should_continue (stGenerate llm ds st),
       [genEvent llm ds st])
  | .check_query, st =>
      (stCheck llm ds st, some .run_query, [checkEvent llm ds st])
  | .run_query, st =>
      (stRunQuery ds st, some .generate_query,
       (st.messages.getLastD default).toolCalls.map .toolExec)

/-- Fuelled execution of the graph from a node.  Returns the final state,
the event trace and the visited-node trace, or `none` when the fuel runs
out before `END` is reached (the loop has no iteration cap). -/
def runTrace (llm : LLM) (ds : DataSource σ) :
    Nat → Node → AgentState σ → Option (AgentState σ × List Event × List Node)
  | 0, _, _ => none
  | fuel + 1, n, st =>
      let r := step llm ds n st
      match r.2.1 with
      | none => some (r.1, r.2.2, [n])
      | some n' =>
          (runTrace llm ds fuel n' r.1).map
            (fun rr => (rr.1, r.2.2 ++ rr.2.1, n :: rr.2.2))

/-- The initial state built by `agent.invoke({"messages": [user]})` in
`query_database` (main.py line 166): one user message. -/
def initState (s : σ) (q : String) : AgentState σ :=
  { messages := [{ role := .user, content := q, msgId := 0 }],
    dbState := s, nextId := 1 }

/-- A full agent run from `START` (edge to `list_tables`, source line
136). -/
def runAgent (llm : LLM) (ds : DataSource σ) (fuel : Nat) (s : σ)
    (q : String) : Option (AgentState σ × List Event × List Node) :=
  runTrace llm ds fuel .list_tables (initState s q)

/-- The answer `query_database` returns: `result["messages"][-1].content`
(main.py lines 169-170). -/
def finalAnswer (st : AgentState σ) : String :=
  (st.messages.getLastD default).content

/-- One message of the executed-SQL extraction loop of `query_database`
(main.py lines 174-179): a message containing a `sql_db_query` tool call
overwrites the accumulator with the `query` argument of its first such call
(only the inner loop over one message's tool calls breaks early); any other
message leaves the accumulator unchanged. -/
def sqlQueryStep (acc : Option String) (m : Message) : Option String :=
  match m.toolCalls.find? (fun tc => tc.name == "sql_db_query") with
  | some tc => tc.args.lookup "query"
  | none => acc

/-- The executed-SQL extraction of `query_database` (main.py lines 172-179):
fold `sqlQueryStep` over all messages of the final conversation, starting
from `None`. -/
def extractSqlQuery (msgs : List Message) : Option String :=
  msgs.foldl sqlQueryStep none

/-- The tool calls executed during a run, in execution order. -/
def toolCallsOf (evs : List Event) : List ToolCall :=
  evs.filterMap (fun e =>
    match e with
    | .toolExec tc => some tc
    | _ => none)

/-- The message lists handed to the model during a run, in call order. -/
def modelInputs (evs : List Event) : List (List Message) :=
  evs.filterMap (fun e =>
    match e with
    | .modelCall _ _ input _ => some input
    | _ => none)

/-- The correlation identifiers of all tool calls the model emitted during
a run, in order. -/
def responseCallIds (evs : List Event) : List String :=
  (evs.map (fun e =>
    match e with
    | .modelCall _ _ _ r => r.toolCalls.map (fun tc => tc.callId)
    | _ => [])).flatten

/-- The correlation identifiers of all tool-invocation requests present in
a message list, in order. -/
def requestIds (msgs : List Message) : List String :=
  (msgs.map (fun m => m.toolCalls.map (fun tc => tc.callId))).flatten

/-- Message ids are pairwise distinct and below the fresh-id supply; this
models LangChain's unique message identifiers. -/
def IdsOk (st : AgentState σ) : Prop :=
  (st.messages.map (fun m => m.msgId)).Nodup ∧
    ∀ m ∈ st.messages, m.msgId < st.nextId

instance (st : AgentState σ) : Decidable (IdsOk st) := by
  unfold IdsOk; exact inferInstance

/-- A tool-result message matching a given correlation identifier. -/
def isResultFor (cid : String) (m : Message) : Bool :=
  (match m.role with
   | .tool => true
   | _ => false) && (m.toolCallId == cid)

/-- The spec's pairing invariant on a message list: every tool-invocation
request in it is followed by exactly one matching tool-result message
carrying the same correlation identifier. -/
def oneResultEach (msgs : List Message) : Prop :=
  ∀ pre m post, msgs = pre ++ m :: post → ∀ tc ∈ m.toolCalls,
    post.countP (isResultFor tc.callId) = 1

/-- Relation `ResultsFor tcs rs`: `rs` is the block of tool-result messages produced
for the tool calls `tcs`, one per call, in order. -/
inductive ResultsFor : List ToolCall → List Message → Prop where
  | nil : ResultsFor [] []
  | cons {tc : ToolCall} {m : Message} {tcs : List ToolCall}
      {ms : List Message} :
      m.role = .tool → m.toolCallId = tc.callId → m.toolCalls = [] →
      ResultsFor tcs ms → ResultsFor (tc :: tcs) (m :: ms)

/-- A message list whose tool-invocation requests are all resolved: a
sequence of blocks, each a non-tool message followed by one result per tool
call it requests. -/
inductive Chunks : List Message → Prop where
  | nil : Chunks []
  | block {m : Message} {rs rest : List Message} :
      m.role ≠ .tool → ResultsFor m.toolCalls rs → Chunks rest →
      Chunks (m :: (rs ++ rest))

/-- A message list that is resolved except for a trailing assistant message
whose tool calls are still awaiting their results. -/
def Pending (msgs : List Message) : Prop :=
  ∃ pre m, msgs = pre ++ [m] ∧ Chunks pre ∧ m.role = .assistant

/-- The conversation-state invariant at the entry of each loop node. -/
def LoopInv : Node → List Message → Prop
  | .generate_query, msgs => Chunks msgs
  | .check_query, msgs => Pending msgs
  | .run_query, msgs => Pending msgs
  | _, _ => False

/-- Split a character list into blank-separated words. -/
def splitWords : List Char → List Char → List String
  | [], acc => [String.mk acc.reverse]
  | c :: cs, acc =>
      if c = ' ' then String.mk acc.reverse :: splitWords cs []
      else splitWords cs (c :: acc)

/-- Modelled from the spec: a keyword scan classifying a statement as DML
(INSERT/UPDATE/DELETE/DROP), used only to state the spec's read-only
requirement — the code contains no such check. -/
def isDML (q : String) : Bool :=
  ["INSERT", "UPDATE", "DELETE", "DROP"].any
    (fun k => (splitWords q.toList []).contains k)

/-- Single-step transition relation of the compiled graph, one constructor
per node, mirroring `step`. -/
inductive StepR (llm : LLM) (ds : DataSource σ) :
    Node → AgentState σ → AgentState σ → Option Node → List Event → Prop where
  | lt {st : AgentState σ} :
      StepR llm ds .list_tables st (stListTables ds st)
        (some .call_get_schema) [.toolExec listTablesCall]
  | cgs {st : AgentState σ} :
      StepR llm ds .call_get_schema st (stCallGetSchema llm st)
        (some .get_schema) [cgsEvent llm st]
  | gs {st : AgentState σ} :
      StepR llm ds .get_schema st (stGetSchema ds st)
        (some .generate_query)
        ((st.messages.getLastD default).toolCalls.map .toolExec)
  | gen {st : AgentState σ} :
      StepR llm ds .generate_query st (stGenerate llm ds st)
        (should_continue (stGenerate llm ds st)) [genEvent llm ds st]
  | chk {st : AgentState σ} :
      StepR llm ds .check_query st (stCheck llm ds st)
        (some .run_query) [checkEvent llm ds st]
  | rq {st : AgentState σ} :
      StepR llm ds .run_query st (stRunQuery ds st)
        (some .generate_query)
        ((st.messages.getLastD default).toolCalls.map .toolExec)

/-- Complete execution relation: from a node and state to the final state at
`END`, together with the event trace and the visited-node trace. -/
inductive RunR (llm : LLM) (ds : DataSource σ) :
    Node → AgentState σ → AgentState σ → List Event → List Node → Prop where
  | done {n : Node} {st st' : AgentState σ} {evs : List Event} :
      StepR llm ds n st st' none evs → RunR llm ds n st st' evs [n]
  | more {n n' : Node} {st st1 st2 : AgentState σ} {evs evs2 : List Event}
      {ns : List Node} :
      StepR llm ds n st st1 (some n') evs → RunR llm ds n' st1 st2 evs2 ns →
      RunR llm ds n st st2 (evs ++ evs2) (n :: ns)

/-- A toy data source state for concrete runs: the row count of a single
`orders` table (observing the idempotence property of the spec). -/
structure ToyDB where
  orders : Nat
deriving DecidableEq, Repr

/-- A concrete data source over `ToyDB`: two tables, a fixed schema string,
and an executor for which the statement `DELETE FROM orders` empties the
`orders` table (as a relational engine would) while anything else is a
read returning one row. -/
def toyDS : DataSource ToyDB :=
  { dialect := "sqlite"
    tables := fun _ => ["orders", "customers"]
    schemaOf := fun _ _ => "CREATE TABLE orders (id INTEGER)"
    exec := fun s q =>
      if q == "DELETE FROM orders" then ({ orders := 0 }, "")
      else (s, "[(1,)]") }

/-- A concrete data source whose executor always fails with a SQL syntax
error, for exercising the error-feedback path. -/
def errDS : DataSource ToyDB :=
  { dialect := "sqlite"
    tables := fun _ => ["orders", "customers"]
    schemaOf := fun _ _ => "CREATE TABLE orders (id INTEGER)"
    exec := fun s _ =>
      (s, "Error: (sqlite3.OperationalError) near SELEC: syntax error") }

/-- A concrete deterministic model that emits a DML candidate: it requests
the `orders` schema, generates the candidate `DELETE FROM orders` (id
`t1`), passes the candidate through unchanged at the check step (id `t2`),
and answers in plain text once a result for `t2` is in the conversation. -/
def llmDelete : LLM := fun tools forced msgs =>
  if tools == ["sql_db_schema"] then
    { content := "",
      toolCalls := [{ name := "sql_db_schema",
                      args := [("table_names", "orders")], callId := "s1" }] }
  else if forced then
    { content := "",
      toolCalls := [{ name := "sql_db_query",
                      args := [("query", (msgs.getLastD default).content)],
                      callId := "t2" }] }
  else if msgs.any (fun m => m.toolCallId == "t2") then
    { content := "The orders table is now empty.", toolCalls := [] }
  else
    { content := "",
      toolCalls := [{ name := "sql_db_query",
                      args := [("query", "DELETE FROM orders")],
                      callId := "t1" }] }

/-- The concrete run of the loop in which the model emits
`DELETE FROM orders`. -/
def delRun : Option (AgentState ToyDB × List Event × List Node) :=
  runAgent llmDelete toyDS 10 { orders := 5 } "delete all my orders"

/-- Final state of the DML run. -/
def delFinal : AgentState ToyDB :=
  (delRun.map (fun r => r.1)).getD (initState { orders := 5 } "")

/-- Event trace of the DML run. -/
def delEvents : List Event := (delRun.map (fun r => r.2.1)).getD []

/-- Node trace of the DML run. -/
def delNodes : List Node := (delRun.map (fun r => r.2.2)).getD []

/-- A concrete deterministic model that always responds with a tool
invocation, witnessing the absence of an iteration cap. -/
def llmLoop : LLM := fun _ _ _ =>
  { content := "",
    toolCalls := [{ name := "sql_db_query",
                    args := [("query", "SELECT 1")], callId := "x" }] }

/-- A concrete deterministic model that requests the schema when the schema
tool is bound and otherwise answers in plain text with no tool invocation,
for exercising the immediate-termination path of `generate_query`. -/
def llmAnswer : LLM := fun tools _ _ =>
  if tools == ["sql_db_schema"] then
    { content := "",
      toolCalls := [{ name := "sql_db_schema",
                      args := [("table_names", "orders")], callId := "s1" }] }
  else { content := "There are 5 orders.", toolCalls := [] }

/-- A concrete model whose check-step response reuses the candidate query
but carries a freshly minted tool-call identifier `t2`, as a real model
does: the code copies only the message id onto the response. -/
def llmCheckFresh : LLM := fun _ _ _ =>
  { content := "",
    toolCalls := [{ name := "sql_db_query",
                    args := [("query", "SELECT 1")], callId := "t2" }] }

/-- A conversation state sitting at the entry of `check_query`: a user
question followed by the candidate query message whose tool call carries
the correlation identifier `t1`. -/
def c2State : AgentState ToyDB :=
  { messages :=
      [ { role := .user, content := "one row please", msgId := 0 },
        { role := .assistant, content := "",
          toolCalls := [{ name := "sql_db_query",
                          args := [("query", "SELECT 1")], callId := "t1" }],
          msgId := 1 } ],
    dbState := { orders := 5 }, nextId := 2 }

/-- The state after the `check_query` step in the `c2State` scenario. -/
def c2Checked : AgentState ToyDB :=
  (step llmCheckFresh toyDS .check_query c2State).1

/-- The state after the subsequent `run_query` step in the `c2State`
scenario. -/
def c2Final : AgentState ToyDB :=
  (step llmCheckFresh toyDS .run_query c2Checked).1

/-- A conversation state sitting at the entry of `run_query` whose checked
query is malformed SQL, for exercising the error-feedback path. -/
def c7State : AgentState ToyDB :=
  { messages :=
      [ { role := .user, content := "count my orders", msgId := 0 },
        { role := .assistant, content := "",
          toolCalls := [{ name := "sql_db_query",
                          args := [("query", "SELEC * FROM orders")],
                          callId := "t9" }],
          msgId := 1 } ],
    dbState := { orders := 5 }, nextId := 2 }

/-- A conversation state sitting at the entry of `run_query` whose checked
query is the DML statement `DELETE FROM orders`. -/
def c1State : AgentState ToyDB :=
  { messages :=
      [ { role := .user, content := "delete all my orders", msgId := 0 },
        { role := .assistant, content := "",
          toolCalls := [{ name := "sql_db_query",
                          args := [("query", "DELETE FROM orders")],
                          callId := "t2" }],
          msgId := 1 } ],
    dbState := { orders := 5 }, nextId := 2 }

/-! ### Reducer lemmas -/

theorem addOne_fresh (msgs : List Message) (m : Message)
    (h : ∀ y ∈ msgs, y.msgId ≠ m.msgId) : addOne msgs m = msgs ++ [m] := by
  unfold addOne
  rw [if_neg]
  intro hc
  obtain ⟨x, hx, he⟩ := List.any_eq_true.mp hc
  exact h x hx (by simpa using he)

theorem addMessages_fresh (new : List Message) :
    ∀ msgs : List Message,
    (∀ x ∈ new, ∀ y ∈ msgs, y.msgId ≠ x.msgId) →
    (new.map (fun m => m.msgId)).Nodup →
    addMessages msgs new = msgs ++ new := by
  induction new with
  | nil => intro msgs _ _; simp [addMessages]
  | cons a tl ih =>
    intro msgs h h2
    unfold addMessages at *
    simp only [List.foldl_cons]
    rw [addOne_fresh msgs a (fun y hy => h a (by simp) y hy)]
    rw [ih (msgs ++ [a]) ?_ ?_]
    · simp
    · intro x hx y hy
      rcases List.mem_append.mp hy with hy' | hy'
      · exact h x (by simp [hx]) y hy'
      · have : y = a := by simpa using hy'
        subst this
        simp only [List.map_cons, List.nodup_cons] at h2
        intro he
        exact h2.1 (he ▸ List.mem_map_of_mem (fun m => m.msgId) hx)
    · simp only [List.map_cons, List.nodup_cons] at h2
      exact h2.2

theorem addOne_replace_last (pre : List Message) (cand m : Message)
    (hid : m.msgId = cand.msgId)
    (hn : ((pre ++ [cand]).map (fun x => x.msgId)).Nodup) :
    addOne (pre ++ [cand]) m = pre ++ [m] := by
  unfold addOne
  rw [if_pos]
  · rw [List.map_append]
    simp only [List.map_cons, List.map_nil]
    have hpre : ∀ x ∈ pre, (if x.msgId == m.msgId then m else x) = x := by
      intro x hx
      rw [if_neg]
      simp only [beq_iff_eq, hid]
      simp only [List.map_append, List.map_cons, List.map_nil,
        List.nodup_append] at hn
      intro he
      exact hn.2.2 (List.mem_map_of_mem (fun x => x.msgId) hx) (by simp [he])
    rw [List.map_congr_left hpre]
    simp [hid]
  · apply List.any_eq_true.mpr
    exact ⟨cand, by simp, by simp [hid]⟩

theorem addMessages_single (msgs : List Message) (m : Message) :
    addMessages msgs [m] = addOne msgs m := rfl

/-! ### ToolNode lemmas -/

theorem toolNode_resultsFor (ds : DataSource σ) (registered : List String) :
    ∀ (tcs : List ToolCall) (s : σ) (nid : Nat),
    ResultsFor tcs (toolNode ds registered tcs s nid).1 := by
  intro tcs
  induction tcs with
  | nil => intro s nid; exact ResultsFor.nil
  | cons tc tl ih =>
    intro s nid
    exact ResultsFor.cons rfl rfl rfl (ih _ _)

theorem toolNode_ids (ds : DataSource σ) (registered : List String) :
    ∀ (tcs : List ToolCall) (s : σ) (nid : Nat),
    (toolNode ds registered tcs s nid).1.map (fun m => m.msgId) =
      List.range' nid tcs.length := by
  intro tcs
  induction tcs with
  | nil => intro s nid; rfl
  | cons tc tl ih =>
    intro s nid
    simp only [toolNode, List.map_cons, List.length_cons, List.range'_succ]
    exact congrArg _ (ih _ _)

/-! ### Id bookkeeping -/

theorem IdsOk_append (st : AgentState σ) (new : List Message) (s' : σ)
    (k : Nat) (h : IdsOk st)
    (hids : new.map (fun m => m.msgId) = List.range' st.nextId k) :
    IdsOk { messages := st.messages ++ new, dbState := s',
            nextId := st.nextId + k } := by
  obtain ⟨hnd, hlt⟩ := h
  refine ⟨?_, ?_⟩
  · rw [List.map_append, hids, List.nodup_append]
    refine ⟨hnd, List.nodup_range' _ _, ?_⟩
    intro a ha hb
    have h1 : a < st.nextId := by
      obtain ⟨m, hm, rfl⟩ := List.mem_map.mp ha
      exact hlt m hm
    have h2 : st.nextId ≤ a := (List.mem_range'_1.mp hb).1
    omega
  · intro m hm
    dsimp only at hm ⊢
    rcases List.mem_append.mp hm with hm' | hm'
    · have := hlt m hm'; omega
    · have : m.msgId ∈ List.range' st.nextId k := by
        rw [← hids]; exact List.mem_map_of_mem (fun m => m.msgId) hm'
      have := (List.mem_range'_1.mp this).2
      omega

theorem addMessages_fresh_of_lb (st : AgentState σ) (h : IdsOk st)
    (new : List Message) (hlb : ∀ x ∈ new, st.nextId ≤ x.msgId)
    (h2 : (new.map (fun m => m.msgId)).Nodup) :
    addMessages st.messages new = st.messages ++ new := by
  apply addMessages_fresh _ _ _ h2
  intro x hx y hy he
  have h1 := h.2 y hy
  have h2 := hlb x hx
  omega

theorem list_tables_ids (ds : DataSource σ) (st : AgentState σ) :
    (list_tables ds st).map (fun m => m.msgId) = List.range' st.nextId 3 := rfl

theorem stListTables_eq (ds : DataSource σ) (st : AgentState σ)
    (h : IdsOk st) :
    stListTables ds st =
      { messages := st.messages ++ list_tables ds st,
        dbState := st.dbState, nextId := st.nextId + 3 } := by
  unfold stListTables
  rw [addMessages_fresh_of_lb st h]
  · intro x hx
    have : x.msgId ∈ List.range' st.nextId 3 := by
      rw [← list_tables_ids ds st]
      exact List.mem_map_of_mem (fun m => m.msgId) hx
    exact (List.mem_range'_1.mp this).1
  · rw [list_tables_ids]
    exact List.nodup_range' _ _

theorem stListTables_ok (ds : DataSource σ) (st : AgentState σ)
    (h : IdsOk st) : IdsOk (stListTables ds st) := by
  rw [stListTables_eq ds st h]
  exact IdsOk_append st _ _ 3 h (list_tables_ids ds st)

theorem stCallGetSchema_eq (llm : LLM) (st : AgentState σ) (h : IdsOk st) :
    stCallGetSchema llm st =
      { messages := st.messages ++ [call_get_schema llm st],
        dbState := st.dbState, nextId := st.nextId + 1 } := by
  unfold stCallGetSchema
  rw [addMessages_fresh_of_lb st h]
  · intro x hx
    have : x = call_get_schema llm st := by simpa using hx
    subst this
    simp [call_get_schema]
  · simp

theorem stCallGetSchema_ok (llm : LLM) (st : AgentState σ) (h : IdsOk st) :
    IdsOk (stCallGetSchema llm st) := by
  rw [stCallGetSchema_eq llm st h]
  exact IdsOk_append st _ _ 1 h (by simp [call_get_schema, List.range'_one])

theorem stGenerate_eq (llm : LLM) (ds : DataSource σ) (st : AgentState σ)
    (h : IdsOk st) :
    stGenerate llm ds st =
      { messages := st.messages ++ [generate_query llm ds st],
        dbState := st.dbState, nextId := st.nextId + 1 } := by
  unfold stGenerate
  rw [addMessages_fresh_of_lb st h]
  · intro x hx
    have : x = generate_query llm ds st := by simpa using hx
    subst this
    simp [generate_query]
  · simp

theorem stGenerate_ok (llm : LLM) (ds : DataSource σ) (st : AgentState σ)
    (h : IdsOk st) : IdsOk (stGenerate llm ds st) := by
  rw [stGenerate_eq llm ds st h]
  exact IdsOk_append st _ _ 1 h (by simp [generate_query, List.range'_one])

theorem should_continue_generate (llm : LLM) (ds : DataSource σ)
    (st : AgentState σ) (h : IdsOk st) :
    should_continue (stGenerate llm ds st) =
      (if (generate_query llm ds st).toolCalls.isEmpty then none
       else some Node.check_query) := by
  unfold should_continue
  rw [stGenerate_eq llm ds st h]
  simp [List.getLastD_concat]

theorem stGetSchema_eq (ds : DataSource σ) (st : AgentState σ)
    (h : IdsOk st) :
    stGetSchema ds st =
      { messages := st.messages ++
          (toolNode ds ["sql_db_schema"]
            (st.messages.getLastD default).toolCalls st.dbState st.nextId).1,
        dbState := (toolNode ds ["sql_db_schema"]
          (st.messages.getLastD default).toolCalls st.dbState st.nextId).2,
        nextId := st.nextId +
          (st.messages.getLastD default).toolCalls.length } := by
  unfold stGetSchema
  rw [addMessages_fresh_of_lb st h]
  · intro x hx
    have : x.msgId ∈ List.range' st.nextId
        (st.messages.getLastD default).toolCalls.length := by
      rw [← toolNode_ids ds ["sql_db_schema"]]
      exact List.mem_map_of_mem (fun m => m.msgId) hx
    exact (List.mem_range'_1.mp this).1
  · rw [toolNode_ids]
    exact List.nodup_range' _ _

theorem stGetSchema_ok (ds : DataSource σ) (st : AgentState σ)
    (h : IdsOk st) : IdsOk (stGetSchema ds st) := by
  rw [stGetSchema_eq ds st h]
  exact IdsOk_append st _ _ _ h (toolNode_ids ds _ _ _ _)

theorem stRunQuery_eq (ds : DataSource σ) (st : AgentState σ)
    (h : IdsOk st) :
    stRunQuery ds st =
      { messages := st.messages ++
          (toolNode ds ["sql_db_query"]
            (st.messages.getLastD default).toolCalls st.dbState st.nextId).1,
        dbState := (toolNode ds ["sql_db_query"]
          (st.messages.getLastD default).toolCalls st.dbState st.nextId).2,
        nextId := st.nextId +
          (st.messages.getLastD default).toolCalls.length } := by
  unfold stRunQuery
  rw [addMessages_fresh_of_lb st h]
  · intro x hx
    have : x.msgId ∈ List.range' st.nextId
        (st.messages.getLastD default).toolCalls.length := by
      rw [← toolNode_ids ds ["sql_db_query"]]
      exact List.mem_map_of_mem (fun m => m.msgId) hx
    exact (List.mem_range'_1.mp this).1
  · rw [toolNode_ids]
    exact List.nodup_range' _ _

theorem stRunQuery_ok (ds : DataSource σ) (st : AgentState σ)
    (h : IdsOk st) : IdsOk (stRunQuery ds st) := by
  rw [stRunQuery_eq ds st h]
  exact IdsOk_append st _ _ _ h (toolNode_ids ds _ _ _ _)

theorem check_query_msgId (llm : LLM) (ds : DataSource σ)
    (st : AgentState σ) (pre : List Message) (cand : Message)
    (hm : st.messages = pre ++ [cand]) :
    (check_query llm ds st).msgId = cand.msgId := by
  simp [check_query, hm, List.getLastD_concat]

theorem stCheck_eq (llm : LLM) (ds : DataSource σ) (st : AgentState σ)
    (pre : List Message) (cand : Message) (h : IdsOk st)
    (hm : st.messages = pre ++ [cand]) :
    stCheck llm ds st =
      { messages := pre ++ [check_query llm ds st],
        dbState := st.dbState, nextId := st.nextId } := by
  unfold stCheck
  rw [addMessages_single, hm, addOne_replace_last pre cand _
    (check_query_msgId llm ds st pre cand hm) (by rw [← hm]; exact h.1)]

theorem stCheck_ok (llm : LLM) (ds : DataSource σ) (st : AgentState σ)
    (pre : List Message) (cand : Message) (h : IdsOk st)
    (hm : st.messages = pre ++ [cand]) : IdsOk (stCheck llm ds st) := by
  rw [stCheck_eq llm ds st pre cand h hm]
  have hidmap : (pre ++ [check_query llm ds st]).map (fun m => m.msgId) =
      (pre ++ [cand]).map (fun m => m.msgId) := by
    simp [check_query_msgId llm ds st pre cand hm]
  refine ⟨?_, ?_⟩
  · dsimp only
    rw [hidmap, ← hm]
    exact h.1
  · intro m hmem
    dsimp only at hmem ⊢
    rcases List.mem_append.mp hmem with h1 | h1
    · exact h.2 m (by rw [hm]; exact List.mem_append.mpr (Or.inl h1))
    · have : m = check_query llm ds st := by simpa using h1
      subst this
      rw [check_query_msgId llm ds st pre cand hm]
      exact h.2 cand (by rw [hm]; simp)

/-! ### Pairing invariant machinery -/

theorem requestIds_append (a b : List Message) :
    requestIds (a ++ b) = requestIds a ++ requestIds b := by
  simp [requestIds]

theorem requestIds_cons (m : Message) (rest : List Message) :
    requestIds (m :: rest) =
      m.toolCalls.map (fun tc => tc.callId) ++ requestIds rest := by
  simp [requestIds]

theorem resultsFor_mem {tcs : List ToolCall} {rs : List Message}
    (h : ResultsFor tcs rs) :
    ∀ x ∈ rs, x.role = .tool ∧ x.toolCalls = [] := by
  induction h with
  | nil => intro x hx; cases hx
  | cons h1 h2 h3 _ ih =>
    intro x hx
    rcases List.mem_cons.mp hx with rfl | hx'
    · exact ⟨h1, h3⟩
    · exact ih x hx'

theorem resultsFor_requestIds {tcs : List ToolCall} {rs : List Message}
    (h : ResultsFor tcs rs) : requestIds rs = [] := by
  induction h with
  | nil => rfl
  | cons h1 h2 h3 _ ih => simp [requestIds_cons, h3, ih]

theorem isResultFor_false (cid : String) (m : Message)
    (h : m.role ≠ .tool) : isResultFor cid m = false := by
  cases hr : m.role
  case tool => exact absurd hr h
  all_goals simp [isResultFor, hr]

theorem resultsFor_countP (cid : String) {tcs : List ToolCall}
    {rs : List Message} (h : ResultsFor tcs rs) :
    rs.countP (isResultFor cid) =
      tcs.countP (fun tc => tc.callId == cid) := by
  induction h with
  | nil => rfl
  | cons h1 h2 h3 _ ih =>
    rw [List.countP_cons, List.countP_cons, ih]
    have he : ∀ m : Message, m.role = Role.tool →
        isResultFor cid m = (m.toolCallId == cid) := by
      intro m hm
      simp [isResultFor, hm]
    rw [he _ h1, h2]

theorem chunks_append {a b : List Message} (h1 : Chunks a) (h2 : Chunks b) :
    Chunks (a ++ b) := by
  induction h1 with
  | nil => simpa
  | block hrole hres hrest ih =>
    rw [List.cons_append, List.append_assoc]
    exact Chunks.block hrole hres ih

theorem chunks_countP (cid : String) {msgs : List Message}
    (h : Chunks msgs) :
    msgs.countP (isResultFor cid) =
      (requestIds msgs).countP (fun x => x == cid) := by
  induction h with
  | nil => rfl
  | block hrole hres hrest ih =>
    rename_i m0 rs rest
    have hm0 : isResultFor cid m0 = false := isResultFor_false cid m0 hrole
    rw [List.countP_cons, List.countP_append, requestIds_cons,
      requestIds_append, resultsFor_requestIds hres,
      resultsFor_countP cid hres, ih, hm0]
    simp [List.countP_append, List.countP_map, Function.comp_def]

theorem countP_callId_eq_one {tcs : List ToolCall} {tc : ToolCall}
    (h : (tcs.map (fun x => x.callId)).Nodup) (hmem : tc ∈ tcs) :
    tcs.countP (fun x => x.callId == tc.callId) = 1 := by
  induction tcs with
  | nil => cases hmem
  | cons a tl ih =>
    rw [List.countP_cons]
    simp only [List.map_cons, List.nodup_cons] at h
    rcases List.mem_cons.mp hmem with rfl | hmem'
    · have h0 : tl.countP (fun x => x.callId == tc.callId) = 0 := by
        apply List.countP_eq_zero.mpr
        intro x hx hbx
        rw [beq_iff_eq] at hbx
        exact h.1 (hbx ▸ List.mem_map_of_mem (fun x => x.callId) hx)
      simp [h0]
    · rw [ih h.2 hmem']
      have hne : ¬ (a.callId == tc.callId) = true := by
        rw [beq_iff_eq]
        intro he
        exact h.1 (he ▸ List.mem_map_of_mem (fun x => x.callId) hmem')
      simp [hne]

theorem chunks_oneResultEach {msgs : List Message} (hc : Chunks msgs) :
    (requestIds msgs).Nodup → oneResultEach msgs := by
  induction hc with
  | nil =>
    intro _ pre m post heq tc htc
    simp at heq
  | block hrole hres hrest ih =>
    rename_i m0 rs rest
    intro hd pre m post heq tc htc
    have hd' : ((m0.toolCalls.map (fun tc => tc.callId)) ++
        requestIds rest).Nodup := by
      simp only [requestIds_cons, requestIds_append,
        resultsFor_requestIds hres, List.nil_append] at hd
      exact hd
    have hdrest : (requestIds rest).Nodup :=
      ((List.nodup_append.mp hd').2).1
    cases pre with
    | nil =>
      simp only [List.nil_append] at heq
      have heq1 : m0 = m := (List.cons.injEq .. ▸ heq).1
      have heq2 : rs ++ rest = post := (List.cons.injEq .. ▸ heq).2
      subst heq1
      subst heq2
      rw [List.countP_append, resultsFor_countP tc.callId hres]
      have h1 : m0.toolCalls.countP (fun x => x.callId == tc.callId) = 1 :=
        countP_callId_eq_one ((List.nodup_append.mp hd').1) htc
      have h2 : rest.countP (isResultFor tc.callId) = 0 := by
        rw [chunks_countP tc.callId hrest]
        apply List.countP_eq_zero.mpr
        intro x hx hbx
        rw [beq_iff_eq] at hbx
        subst hbx
        exact (List.nodup_append.mp hd').2.2
          (List.mem_map_of_mem (fun x => x.callId) htc) hx
      omega
    | cons p0 pre' =>
      simp only [List.cons_append] at heq
      have h0 : m0 = p0 := (List.cons.injEq .. ▸ heq).1
      have htail : rs ++ rest = pre' ++ m :: post :=
        (List.cons.injEq .. ▸ heq).2
      rcases List.append_eq_append_iff.mp htail.symm with
        ⟨a', hrs, hb⟩ | ⟨c', hpre, hrest2⟩
      · cases a' with
        | nil =>
          simp only [List.append_nil] at hrs
          simp only [List.nil_append] at hb
          exact ih hdrest [] m post hb.symm tc htc
        | cons x a'' =>
          have hmx : m = x := (List.cons.injEq .. ▸ hb).1
          have : x ∈ rs := by rw [hrs]; simp
          have := (resultsFor_mem hres x this).2
          rw [hmx, this] at htc
          cases htc
      · exact ih hdrest c' m post hrest2 tc htc

theorem oneResultEach_cons (m0 : Message) (msgs : List Message)
    (hm0 : m0.toolCalls = []) (h : oneResultEach msgs) :
    oneResultEach (m0 :: msgs) := by
  intro pre m post heq tc htc
  cases pre with
  | nil =>
    simp only [List.nil_append] at heq
    have : m0 = m := (List.cons.injEq .. ▸ heq).1
    rw [← this, hm0] at htc
    cases htc
  | cons p0 pre' =>
    simp only [List.cons_append] at heq
    exact h pre' m post (List.cons.injEq .. ▸ heq).2 tc htc

theorem oneResultEach_of_noCalls (msgs : List Message)
    (h : ∀ m ∈ msgs, m.toolCalls = []) : oneResultEach msgs := by
  intro pre m post heq tc htc
  have hmem : m ∈ msgs := by rw [heq]; simp
  rw [h m hmem] at htc
  cases htc

/-! ### Run unfolding and trace observation lemmas -/

theorem runTrace_zero (llm : LLM) (ds : DataSource σ) (n : Node)
    (st : AgentState σ) : runTrace llm ds 0 n st = none := rfl

theorem runTrace_lt (llm : LLM) (ds : DataSource σ) (fuel : Nat)
    (st : AgentState σ) :
    runTrace llm ds (fuel + 1) .list_tables st =
      (runTrace llm ds fuel .call_get_schema (stListTables ds st)).map
        (fun rr => (rr.1, [Event.toolExec listTablesCall] ++ rr.2.1,
          Node.list_tables :: rr.2.2)) := rfl

theorem runTrace_cgs (llm : LLM) (ds : DataSource σ) (fuel : Nat)
    (st : AgentState σ) :
    runTrace llm ds (fuel + 1) .call_get_schema st =
      (runTrace llm ds fuel .get_schema (stCallGetSchema llm st)).map
        (fun rr => (rr.1, [cgsEvent llm st] ++ rr.2.1,
          Node.call_get_schema :: rr.2.2)) := rfl

theorem runTrace_gs (llm : LLM) (ds : DataSource σ) (fuel : Nat)
    (st : AgentState σ) :
    runTrace llm ds (fuel + 1) .get_schema st =
      (runTrace llm ds fuel .generate_query (stGetSchema ds st)).map
        (fun rr => (rr.1,
          (st.messages.getLastD default).toolCalls.map .toolExec ++ rr.2.1,
          Node.get_schema :: rr.2.2)) := rfl

theorem runTrace_chk (llm : LLM) (ds : DataSource σ) (fuel : Nat)
    (st : AgentState σ) :
    runTrace llm ds (fuel + 1) .check_query st =
      (runTrace llm ds fuel .run_query (stCheck llm ds st)).map
        (fun rr => (rr.1, [checkEvent llm ds st] ++ rr.2.1,
          Node.check_query :: rr.2.2)) := rfl

theorem runTrace_rq (llm : LLM) (ds : DataSource σ) (fuel : Nat)
    (st : AgentState σ) :
    runTrace llm ds (fuel + 1) .run_query st =
      (runTrace llm ds fuel .generate_query (stRunQuery ds st)).map
        (fun rr => (rr.1,
          (st.messages.getLastD default).toolCalls.map .toolExec ++ rr.2.1,
          Node.run_query :: rr.2.2)) := rfl

theorem runTrace_gen_match (llm : LLM) (ds : DataSource σ) (fuel : Nat)
    (st : AgentState σ) :
    runTrace llm ds (fuel + 1) .generate_query st =
      match should_continue (stGenerate llm ds st) with
      | none => some (stGenerate llm ds st, [genEvent llm ds st],
          [Node.generate_query])
      | some n' =>
          (runTrace llm ds fuel n' (stGenerate llm ds st)).map
            (fun rr => (rr.1, [genEvent llm ds st] ++ rr.2.1,
              Node.generate_query :: rr.2.2)) := rfl

theorem runTrace_gen_end (llm : LLM) (ds : DataSource σ) (fuel : Nat)
    (st : AgentState σ)
    (h : should_continue (stGenerate llm ds st) = none) :
    runTrace llm ds (fuel + 1) .generate_query st =
      some (stGenerate llm ds st, [genEvent llm ds st],
        [Node.generate_query]) := by
  rw [runTrace_gen_match, h]

theorem runTrace_gen_go (llm : LLM) (ds : DataSource σ) (fuel : Nat)
    (st : AgentState σ) (n' : Node)
    (h : should_continue (stGenerate llm ds st) = some n') :
    runTrace llm ds (fuel + 1) .generate_query st =
      (runTrace llm ds fuel n' (stGenerate llm ds st)).map
        (fun rr => (rr.1, [genEvent llm ds st] ++ rr.2.1,
          Node.generate_query :: rr.2.2)) := by
  rw [runTrace_gen_match, h]

theorem responseCallIds_append (a b : List Event) :
    responseCallIds (a ++ b) = responseCallIds a ++ responseCallIds b := by
  simp [responseCallIds]

theorem responseCallIds_toolExecs (l : List ToolCall) :
    responseCallIds (l.map .toolExec) = [] := by
  simp [responseCallIds]

theorem modelInputs_append (a b : List Event) :
    modelInputs (a ++ b) = modelInputs a ++ modelInputs b := by
  simp [modelInputs]

theorem modelInputs_toolExecs (l : List ToolCall) :
    modelInputs (l.map .toolExec) = [] := by
  simp [modelInputs]

theorem checkInput_noCalls (ds : DataSource σ) (st : AgentState σ) :
    ∀ m ∈ checkInput ds st, m.toolCalls = [] := by
  intro m hm
  rcases List.mem_cons.mp hm with rfl | hm'
  · rfl
  · have : m = { role := .user, content := candidateQueryText st } := by
      simpa using hm'
    subst this
    rfl

theorem responseCallIds_genEvent (llm : LLM) (ds : DataSource σ)
    (st : AgentState σ) :
    responseCallIds [genEvent llm ds st] =
      (generate_query llm ds st).toolCalls.map (fun tc => tc.callId) := by
  simp [responseCallIds, genEvent, generate_query]

theorem responseCallIds_checkEvent (llm : LLM) (ds : DataSource σ)
    (st : AgentState σ) :
    responseCallIds [checkEvent llm ds st] =
      (check_query llm ds st).toolCalls.map (fun tc => tc.callId) := by
  simp [responseCallIds, checkEvent, check_query]

theorem responseCallIds_cgsEvent (llm : LLM) (st : AgentState σ) :
    responseCallIds [cgsEvent llm st] =
      (call_get_schema llm st).toolCalls.map (fun tc => tc.callId) := by
  simp [responseCallIds, cgsEvent, call_get_schema]

theorem modelInputs_genEvent (llm : LLM) (ds : DataSource σ)
    (st : AgentState σ) :
    modelInputs [genEvent llm ds st] = [genInput ds st] := by
  simp [modelInputs, genEvent]

theorem modelInputs_checkEvent (llm : LLM) (ds : DataSource σ)
    (st : AgentState σ) :
    modelInputs [checkEvent llm ds st] = [checkInput ds st] := by
  simp [modelInputs, checkEvent]

theorem modelInputs_cgsEvent (llm : LLM) (st : AgentState σ) :
    modelInputs [cgsEvent llm st] = [st.messages] := by
  simp [modelInputs, cgsEvent]

theorem chunks_single (m : Message) (hrole : m.role ≠ .tool)
    (hcalls : m.toolCalls = []) : Chunks [m] := by
  have := @Chunks.block m [] [] hrole
    (by rw [hcalls]; exact ResultsFor.nil) Chunks.nil
  simpa using this

theorem chunks_block_nil (m : Message) (rs : List Message)
    (hrole : m.role ≠ .tool) (hres : ResultsFor m.toolCalls rs) :
    Chunks (m :: rs) := by
  have := Chunks.block hrole hres Chunks.nil
  simpa using this

theorem genInput_oneResultEach (ds : DataSource σ) (st : AgentState σ)
    (hc : Chunks st.messages) (hd : (requestIds st.messages).Nodup) :
    oneResultEach (genInput ds st) :=
  oneResultEach_cons _ _ rfl (chunks_oneResultEach hc hd)

/-- The central invariant-preservation induction over the
`generate_query` / `check_query` / `run_query` cycle: a completed run from
a loop node whose state satisfies the node's entry invariant, and whose
model-emitted correlation identifiers are globally fresh, ends in a fully
resolved conversation and hands the model only resolved conversations. -/
theorem loop_paired (llm : LLM) (ds : DataSource σ) :
    ∀ (fuel : Nat) (n : Node) (st stf : AgentState σ) (evs : List Event)
      (ns : List Node) (used : List String),
    runTrace llm ds fuel n st = some (stf, evs, ns) →
    IdsOk st → LoopInv n st.messages →
    List.Sublist (requestIds st.messages) used →
    (used ++ responseCallIds evs).Nodup →
    Chunks stf.messages ∧
      List.Sublist (requestIds stf.messages) (used ++ responseCallIds evs) ∧
      (∀ input ∈ modelInputs evs, oneResultEach input) := by
  intro fuel
  induction fuel with
  | zero =>
    intro n st stf evs ns used hrun
    rw [runTrace_zero] at hrun
    cases hrun
  | succ f ih =>
    intro n st stf evs ns used hrun hids hinv hsub hnd
    cases n with
    | list_tables => exact hinv.elim
    | call_get_schema => exact hinv.elim
    | get_schema => exact hinv.elim
    | generate_query =>
      have hchunks : Chunks st.messages := hinv
      have hdused : used.Nodup := (List.nodup_append.mp hnd).1
      have hdmsgs : (requestIds st.messages).Nodup :=
        List.Nodup.sublist hsub hdused
      have hgen := should_continue_generate llm ds st hids
      cases hempty : (generate_query llm ds st).toolCalls with
      | nil =>
        have hsc : should_continue (stGenerate llm ds st) = none := by
          rw [hgen, hempty]; rfl
        rw [runTrace_gen_end llm ds f st hsc] at hrun
        simp only [Option.some.injEq, Prod.mk.injEq] at hrun
        obtain ⟨h1, h2, h3⟩ := hrun
        subst h1; subst h2; subst h3
        have hids0 : responseCallIds [genEvent llm ds st] = [] := by
          rw [responseCallIds_genEvent, hempty]; rfl
        have hmsgs : (stGenerate llm ds st).messages =
            st.messages ++ [generate_query llm ds st] := by
          rw [stGenerate_eq llm ds st hids]
        refine ⟨?_, ?_, ?_⟩
        · rw [hmsgs]
          exact chunks_append hchunks
            (chunks_single _ (by intro hc; cases hc) hempty)
        · rw [hmsgs, requestIds_append, requestIds_cons, hempty, hids0]
          simpa [requestIds] using hsub
        · intro input hin
          rw [modelInputs_genEvent] at hin
          have : input = genInput ds st := by simpa using hin
          subst this
          exact genInput_oneResultEach ds st hchunks hdmsgs
      | cons tc0 tl =>
        have hsc : should_continue (stGenerate llm ds st) =
            some .check_query := by
          rw [hgen, hempty]; rfl
        rw [runTrace_gen_go llm ds f st .check_query hsc] at hrun
        obtain ⟨rr, hrr, heq⟩ := Option.map_eq_some'.mp hrun
        simp only [Prod.mk.injEq] at heq
        obtain ⟨h1, h2, h3⟩ := heq
        subst h1; subst h2; subst h3
        have hmsgs : (stGenerate llm ds st).messages =
            st.messages ++ [generate_query llm ds st] := by
          rw [stGenerate_eq llm ds st hids]
        have hreq1 : List.Sublist
            (requestIds (stGenerate llm ds st).messages)
            (used ++ responseCallIds [genEvent llm ds st]) := by
          rw [hmsgs, requestIds_append, requestIds_cons,
            responseCallIds_genEvent]
          simpa [requestIds] using List.Sublist.append hsub
            (List.Sublist.refl
              ((generate_query llm ds st).toolCalls.map
                (fun tc => tc.callId)))
        have hnd' : ((used ++ responseCallIds [genEvent llm ds st]) ++
            responseCallIds rr.2.1).Nodup := by
          rw [List.append_assoc, ← responseCallIds_append]
          exact hnd
        have hih := ih .check_query (stGenerate llm ds st) rr.1 rr.2.1
          rr.2.2 (used ++ responseCallIds [genEvent llm ds st]) hrr
          (stGenerate_ok llm ds st hids)
          ⟨st.messages, generate_query llm ds st, hmsgs, hchunks, rfl⟩
          hreq1 hnd'
        refine ⟨hih.1, ?_, ?_⟩
        · rw [responseCallIds_append, ← List.append_assoc]
          exact hih.2.1
        · intro input hin
          rw [modelInputs_append, modelInputs_genEvent] at hin
          rcases List.mem_append.mp hin with hin' | hin'
          · have : input = genInput ds st := by simpa using hin'
            subst this
            exact genInput_oneResultEach ds st hchunks hdmsgs
          · exact hih.2.2 input hin'
    | check_query =>
      obtain ⟨pre, cand, hm, hcpre, hrole⟩ := hinv
      have hdused : used.Nodup := (List.nodup_append.mp hnd).1
      rw [runTrace_chk] at hrun
      obtain ⟨rr, hrr, heq⟩ := Option.map_eq_some'.mp hrun
      simp only [Prod.mk.injEq] at heq
      obtain ⟨h1, h2, h3⟩ := heq
      subst h1; subst h2; subst h3
      have hmsgs : (stCheck llm ds st).messages =
          pre ++ [check_query llm ds st] := by
        rw [stCheck_eq llm ds st pre cand hids hm]
      have hpresub : List.Sublist (requestIds pre) used := by
        apply List.Sublist.trans _ hsub
        rw [hm, requestIds_append]
        exact List.sublist_append_left _ _
      have hreq1 : List.Sublist (requestIds (stCheck llm ds st).messages)
          (used ++ responseCallIds [checkEvent llm ds st]) := by
        rw [hmsgs, requestIds_append, requestIds_cons,
          responseCallIds_checkEvent]
        simpa [requestIds] using List.Sublist.append hpresub
          (List.Sublist.refl
            ((check_query llm ds st).toolCalls.map (fun tc => tc.callId)))
      have hnd' : ((used ++ responseCallIds [checkEvent llm ds st]) ++
          responseCallIds rr.2.1).Nodup := by
        rw [List.append_assoc, ← responseCallIds_append]
        exact hnd
      have hih := ih .run_query (stCheck llm ds st) rr.1 rr.2.1 rr.2.2
        (used ++ responseCallIds [checkEvent llm ds st]) hrr
        (stCheck_ok llm ds st pre cand hids hm)
        ⟨pre, check_query llm ds st, hmsgs, hcpre, rfl⟩
        hreq1 hnd'
      refine ⟨hih.1, ?_, ?_⟩
      · rw [responseCallIds_append, ← List.append_assoc]
        exact hih.2.1
      · intro input hin
        rw [modelInputs_append, modelInputs_checkEvent] at hin
        rcases List.mem_append.mp hin with hin' | hin'
        · have : input = checkInput ds st := by simpa using hin'
          subst this
          exact oneResultEach_of_noCalls _ (checkInput_noCalls ds st)
        · exact hih.2.2 input hin'
    | run_query =>
      obtain ⟨pre, m, hm, hcpre, hrole⟩ := hinv
      rw [runTrace_rq] at hrun
      obtain ⟨rr, hrr, heq⟩ := Option.map_eq_some'.mp hrun
      simp only [Prod.mk.injEq] at heq
      obtain ⟨h1, h2, h3⟩ := heq
      subst h1; subst h2; subst h3
      have hlast : st.messages.getLastD default = m := by
        rw [hm, List.getLastD_concat]
      have hres : ResultsFor m.toolCalls
          (toolNode ds ["sql_db_query"] m.toolCalls st.dbState
            st.nextId).1 := toolNode_resultsFor ds _ _ _ _
      have hmsgs : (stRunQuery ds st).messages =
          pre ++ (m :: (toolNode ds ["sql_db_query"] m.toolCalls st.dbState
            st.nextId).1) := by
        rw [stRunQuery_eq ds st hids, hlast, hm]
        simp
      have hchunks1 : Chunks (stRunQuery ds st).messages := by
        rw [hmsgs]
        exact chunks_append hcpre
          (chunks_block_nil m _ (by rw [hrole]; intro hc; cases hc) hres)
      have hreq1 : List.Sublist (requestIds (stRunQuery ds st).messages)
          used := by
        rw [hmsgs, requestIds_append, requestIds_cons,
          resultsFor_requestIds hres, List.append_nil]
        rw [hm, requestIds_append] at hsub
        simpa [requestIds] using hsub
      have hrciE : responseCallIds
          ((st.messages.getLastD default).toolCalls.map .toolExec) = [] :=
        responseCallIds_toolExecs _
      have hnd' : (used ++ responseCallIds rr.2.1).Nodup := by
        rw [responseCallIds_append, hrciE, List.nil_append] at hnd
        exact hnd
      have hih := ih .generate_query (stRunQuery ds st) rr.1 rr.2.1 rr.2.2
        used hrr (stRunQuery_ok ds st hids) hchunks1 hreq1 hnd'
      refine ⟨hih.1, ?_, ?_⟩
      · rw [responseCallIds_append, hrciE, List.nil_append]
        exact hih.2.1
      · intro input hin
        rw [modelInputs_append, modelInputs_toolExecs,
          List.nil_append] at hin
        exact hih.2.2 input hin

theorem responseCallIds_toolExec_one (c : ToolCall) :
    responseCallIds [Event.toolExec c] = [] := rfl

theorem modelInputs_toolExec_one (c : ToolCall) :
    modelInputs [Event.toolExec c] = [] := rfl

theorem initState_ok (s : σ) (q : String) : IdsOk (initState s q) := by
  refine ⟨by simp [initState], ?_⟩
  intro m hm
  simp only [initState, List.mem_singleton] at hm
  subst hm
  simp [initState]

theorem chunks_initState (s : σ) (q : String) :
    Chunks (initState s q).messages := by
  exact chunks_single _ (by intro hc; cases hc) rfl

theorem requestIds_initState (s : σ) (q : String) :
    requestIds (initState s q).messages = [] := rfl

theorem chunks_list_tables (ds : DataSource σ) (st : AgentState σ) :
    Chunks (list_tables ds st) := by
  have hres : ResultsFor [listTablesCall]
      [{ role := .tool, content := listTablesContent ds st.dbState,
         toolCallId := "abc123", msgId := st.nextId + 1 }] :=
    ResultsFor.cons rfl rfl rfl ResultsFor.nil
  have hb := @Chunks.block
    { role := .assistant, content := "",
      toolCalls := [listTablesCall], msgId := st.nextId }
    [{ role := .tool, content := listTablesContent ds st.dbState,
       toolCallId := "abc123", msgId := st.nextId + 1 }]
    [{ role := .assistant,
       content := "Available tables: " ++ listTablesContent ds st.dbState,
       msgId := st.nextId + 2 }]
    (by intro hc; cases hc) hres
    (chunks_single _ (by intro hc; cases hc) rfl)
  simpa [list_tables] using hb

theorem requestIds_list_tables (ds : DataSource σ) (st : AgentState σ) :
    requestIds (list_tables ds st) = ["abc123"] := by
  simp [requestIds, list_tables, listTablesCall]

/-- C5: in every conversation the loop hands to the model, and in the final
conversation, every tool-invocation request message is followed by exactly
one matching tool-result message carrying the same correlation identifier
(`oneResultEach`).  The hypothesis `hfresh` is the correlation-identifier
contract on the external model: the identifiers it mints during the run are
pairwise distinct and avoid the hard-coded `"abc123"`.  The `check_query`
model call receives a fresh two-message conversation, and the candidate it
supersedes is replaced in place (same message id) before any model call
sees the conversation again, so the invariant holds at every model call. -/
theorem c5_tool_requests_paired (llm : LLM) (ds : DataSource σ)
    (fuel : Nat) (s : σ) (q : String) (stf : AgentState σ)
    (evs : List Event) (ns : List Node)
    (hrun : runAgent llm ds fuel s q = some (stf, evs, ns))
    (hfresh : ("abc123" :: responseCallIds evs).Nodup) :
    oneResultEach stf.messages ∧
      ∀ input ∈ modelInputs evs, oneResultEach input := by
  cases fuel with
  | zero => rw [runAgent, runTrace_zero] at hrun; cases hrun
  | succ f1 =>
  rw [runAgent, runTrace_lt] at hrun
  obtain ⟨r1, hr1, he1⟩ := Option.map_eq_some'.mp hrun
  cases f1 with
  | zero => rw [runTrace_zero] at hr1; cases hr1
  | succ f2 =>
  rw [runTrace_cgs] at hr1
  obtain ⟨r2, hr2, he2⟩ := Option.map_eq_some'.mp hr1
  cases f2 with
  | zero => rw [runTrace_zero] at hr2; cases hr2
  | succ f3 =>
  rw [runTrace_gs] at hr2
  obtain ⟨r3, hr3, he3⟩ := Option.map_eq_some'.mp hr2
  have hids0 : IdsOk (initState s q) := initState_ok s q
  have hids1 : IdsOk (stListTables ds (initState s q)) :=
    stListTables_ok ds _ hids0
  have hids2 : IdsOk (stCallGetSchema llm (stListTables ds (initState s q))) :=
    stCallGetSchema_ok llm _ hids1
  have h1eq : (stListTables ds (initState s q)).messages =
      (initState s q).messages ++ list_tables ds (initState s q) :=
    by rw [stListTables_eq ds _ hids0]
  have hchunks1 : Chunks (stListTables ds (initState s q)).messages := by
    rw [h1eq]
    exact chunks_append (chunks_initState s q) (chunks_list_tables ds _)
  have hreq1 : requestIds (stListTables ds (initState s q)).messages =
      ["abc123"] := by
    rw [h1eq, requestIds_append, requestIds_initState,
      requestIds_list_tables, List.nil_append]
  have h2eq : (stCallGetSchema llm (stListTables ds (initState s q))).messages
      = (stListTables ds (initState s q)).messages ++
        [call_get_schema llm (stListTables ds (initState s q))] :=
    by rw [stCallGetSchema_eq llm _ hids1]
  have hlast2 : ((stCallGetSchema llm
      (stListTables ds (initState s q))).messages.getLastD default) =
      call_get_schema llm (stListTables ds (initState s q)) := by
    rw [h2eq, List.getLastD_concat]
  have h3eq : (stGetSchema ds (stCallGetSchema llm
      (stListTables ds (initState s q)))).messages =
      (stListTables ds (initState s q)).messages ++
        (call_get_schema llm (stListTables ds (initState s q)) ::
          (toolNode ds ["sql_db_schema"]
            (call_get_schema llm (stListTables ds (initState s q))).toolCalls
            (stCallGetSchema llm (stListTables ds (initState s q))).dbState
            (stCallGetSchema llm
              (stListTables ds (initState s q))).nextId).1) := by
    rw [stGetSchema_eq ds _ hids2, hlast2, h2eq]
    simp
  have hres3 : ResultsFor
      (call_get_schema llm (stListTables ds (initState s q))).toolCalls
      (toolNode ds ["sql_db_schema"]
        (call_get_schema llm (stListTables ds (initState s q))).toolCalls
        (stCallGetSchema llm (stListTables ds (initState s q))).dbState
        (stCallGetSchema llm (stListTables ds (initState s q))).nextId).1 :=
    toolNode_resultsFor ds _ _ _ _
  have hchunks3 : Chunks (stGetSchema ds (stCallGetSchema llm
      (stListTables ds (initState s q)))).messages := by
    rw [h3eq]
    exact chunks_append hchunks1
      (chunks_block_nil _ _ (by intro hc; cases hc) hres3)
  have hreq3 : requestIds (stGetSchema ds (stCallGetSchema llm
      (stListTables ds (initState s q)))).messages =
      "abc123" :: (call_get_schema llm
        (stListTables ds (initState s q))).toolCalls.map
          (fun tc => tc.callId) := by
    rw [h3eq, requestIds_append, hreq1, requestIds_cons,
      resultsFor_requestIds hres3, List.append_nil]
    rfl
  have hv1 : [Event.toolExec listTablesCall] ++ r1.2.1 = evs :=
    congrArg (fun r => r.2.1) he1
  have hf1 : r1.1 = stf := congrArg (fun r => r.1) he1
  have hv2 : r1.2.1 = [cgsEvent llm (stListTables ds (initState s q))] ++
      r2.2.1 := (congrArg (fun r => r.2.1) he2).symm
  have hf2 : r1.1 = r2.1 := (congrArg (fun r => r.1) he2).symm
  have hv3 : r2.2.1 = ((stCallGetSchema llm (stListTables ds
      (initState s q))).messages.getLastD default).toolCalls.map
        Event.toolExec ++ r3.2.1 :=
    (congrArg (fun r => r.2.1) he3).symm
  have hf3 : r2.1 = r3.1 := (congrArg (fun r => r.1) he3).symm
  have hrespEvs : responseCallIds evs =
      (call_get_schema llm (stListTables ds (initState s q))).toolCalls.map
        (fun tc => tc.callId) ++ responseCallIds r3.2.1 := by
    rw [← hv1, hv2, hv3, hlast2]
    rw [responseCallIds_append, responseCallIds_toolExec_one,
      List.nil_append, responseCallIds_append, responseCallIds_cgsEvent,
      responseCallIds_append, responseCallIds_toolExecs, List.nil_append]
  have hnd3 : (("abc123" :: (call_get_schema llm
      (stListTables ds (initState s q))).toolCalls.map
        (fun tc => tc.callId)) ++ responseCallIds r3.2.1).Nodup := by
    rw [List.cons_append, ← hrespEvs]
    exact hfresh
  have hloop := loop_paired llm ds f3 .generate_query _ r3.1 r3.2.1 r3.2.2
    ("abc123" :: (call_get_schema llm
      (stListTables ds (initState s q))).toolCalls.map (fun tc => tc.callId))
    (by
      rw [show r3 = (r3.1, r3.2.1, r3.2.2) from rfl] at hr3
      exact hr3)
    (stGetSchema_ok ds _ hids2) hchunks3
    (by rw [hreq3]) hnd3
  have hstf : stf = r3.1 := by rw [← hf1, hf2, hf3]
  constructor
  · rw [hstf]
    exact chunks_oneResultEach hloop.1
      (List.Nodup.sublist hloop.2.1 hnd3)
  · intro input hin
    rw [← hv1, hv2, hv3, hlast2] at hin
    rw [modelInputs_append, modelInputs_toolExec_one, List.nil_append,
      modelInputs_append, modelInputs_cgsEvent, modelInputs_append,
      modelInputs_toolExecs, List.nil_append] at hin
    rcases List.mem_append.mp hin with hin' | hin'
    · have : input = (stListTables ds (initState s q)).messages := by
        simpa using hin'
      subst this
      exact chunks_oneResultEach hchunks1 (by rw [hreq1]; simp)
    · exact hloop.2.2 input hin'

/-! ### The Executor as a pass-through -/

theorem run_query_exec (llm : LLM) (ds : DataSource σ) (st : AgentState σ)
    (pre : List Message) (m : Message) (q cid : String) (h : IdsOk st)
    (hm : st.messages = pre ++ [m])
    (hcall : m.toolCalls =
      [{ name := "sql_db_query", args := [("query", q)], callId := cid }]) :
    step llm ds .run_query st =
      ({ messages := st.messages ++
          [{ role := .tool, content := (ds.exec st.dbState q).2,
             toolCallId := cid, msgId := st.nextId }],
         dbState := (ds.exec st.dbState q).1, nextId := st.nextId + 1 },
       some .generate_query,
       [.toolExec
          { name := "sql_db_query", args := [("query", q)],
            callId := cid }]) := by
  have hlast : st.messages.getLastD default = m := by
    rw [hm, List.getLastD_concat]
  have htn : toolNode ds ["sql_db_query"]
      [{ name := "sql_db_query", args := [("query", q)], callId := cid }]
      st.dbState st.nextId =
      ([{ role := .tool, content := (ds.exec st.dbState q).2,
          toolCallId := cid, msgId := st.nextId }],
       (ds.exec st.dbState q).1) := by
    simp [toolNode, execTool]
  show (stRunQuery ds st, some Node.generate_query,
    (st.messages.getLastD default).toolCalls.map Event.toolExec) = _
  rw [stRunQuery_eq ds st h, hlast, hcall, htn]
  rfl

/-- C3: whenever the `generate_query` model response contains no tool
invocation, the loop terminates at once: the run ends after that single
node visit, the only event is that one model call (no further tool or
model calls), and the answer `query_database` extracts
(`finalAnswer = result["messages"][-1].content`) is exactly that
response's text. -/
theorem c3_no_tool_call_terminates (llm : LLM) (ds : DataSource σ)
    (fuel : Nat) (st : AgentState σ) (h : IdsOk st)
    (hnone : (llm ["sql_db_query"] false (genInput ds st)).toolCalls = []) :
    runTrace llm ds (fuel + 1) .generate_query st =
      some (stGenerate llm ds st, [genEvent llm ds st],
        [Node.generate_query]) ∧
    finalAnswer (stGenerate llm ds st) =
      (llm ["sql_db_query"] false (genInput ds st)).content := by
  have hempty : (generate_query llm ds st).toolCalls = [] := hnone
  have hsc : should_continue (stGenerate llm ds st) = none := by
    rw [should_continue_generate llm ds st h, hempty]; rfl
  refine ⟨runTrace_gen_end llm ds fuel st hsc, ?_⟩
  unfold finalAnswer
  rw [stGenerate_eq llm ds st h]
  dsimp only
  rw [List.getLastD_concat]
  rfl

/-- C3 witness: a concrete model that answers `"There are 5 orders."`
without any tool invocation makes the loop stop immediately with that text
as the final answer. -/
theorem c3_witness :
    IdsOk (initState ({ orders := 5 } : ToyDB) "How many orders?") ∧
    (llmAnswer ["sql_db_query"] false
      (genInput toyDS
        (initState ({ orders := 5 } : ToyDB) "How many orders?"))).toolCalls
      = [] ∧
    (runTrace llmAnswer toyDS 3 .generate_query
        (initState ({ orders := 5 } : ToyDB) "How many orders?") =
      some (stGenerate llmAnswer toyDS
          (initState ({ orders := 5 } : ToyDB) "How many orders?"),
        [genEvent llmAnswer toyDS
          (initState ({ orders := 5 } : ToyDB) "How many orders?")],
        [Node.generate_query]) ∧
     finalAnswer (stGenerate llmAnswer toyDS
        (initState ({ orders := 5 } : ToyDB) "How many orders?")) =
       (llmAnswer ["sql_db_query"] false
         (genInput toyDS
           (initState ({ orders := 5 } : ToyDB)
             "How many orders?"))).content) :=
  ⟨by decide, rfl,
   c3_no_tool_call_terminates llmAnswer toyDS 2
     (initState ({ orders := 5 } : ToyDB) "How many orders?")
     (by decide) rfl⟩

/-- C7: the `run_query` step appends the data source's result for the
checked query — whatever text that is, rows or error text — as a
tool-result message carrying the call's correlation identifier, and its
outgoing edge is unconditionally `generate_query`: an execution error never
ends the run and is never surfaced as fatal, it is handed back to the model
for the next generation attempt. -/
theorem c7_error_fed_back (llm : LLM) (ds : DataSource σ)
    (st : AgentState σ) (pre : List Message) (m : Message) (q cid : String)
    (h : IdsOk st) (hm : st.messages = pre ++ [m])
    (hcall : m.toolCalls =
      [{ name := "sql_db_query", args := [("query", q)], callId := cid }]) :
    step llm ds .run_query st =
      ({ messages := st.messages ++
          [{ role := .tool, content := (ds.exec st.dbState q).2,
             toolCallId := cid, msgId := st.nextId }],
         dbState := (ds.exec st.dbState q).1, nextId := st.nextId + 1 },
       some .generate_query,
       [.toolExec
          { name := "sql_db_query", args := [("query", q)],
            callId := cid }]) ∧
    ∀ st2 : AgentState σ, (step llm ds .run_query st2).2.1 =
      some .generate_query :=
  ⟨run_query_exec llm ds st pre m q cid h hm hcall, fun _ => rfl⟩

/-- C7 witness: a malformed query's error text is appended as the tool
result and control moves to `generate_query`. -/
theorem c7_witness :
    IdsOk c7State ∧
    step llmDelete errDS .run_query c7State =
      ({ messages := c7State.messages ++
          [{ role := .tool,
             content :=
               "Error: (sqlite3.OperationalError) near SELEC: syntax error",
             toolCallId := "t9", msgId := 2 }],
         dbState := { orders := 5 }, nextId := 3 },
       some .generate_query,
       [.toolExec
          { name := "sql_db_query",
            args := [("query", "SELEC * FROM orders")],
            callId := "t9" }]) :=
  ⟨by decide,
   ((c7_error_fed_back llmDelete errDS c7State
      [{ role := .user, content := "count my orders", msgId := 0 }]
      { role := .assistant, content := "",
        toolCalls := [{ name := "sql_db_query",
                        args := [("query", "SELEC * FROM orders")],
                        callId := "t9" }],
        msgId := 1 }
      "SELEC * FROM orders" "t9" (by decide) rfl rfl).1)⟩

/-- C9: the initial `list_tables` node consults no model (its only event is
the execution of the hard-coded `sql_db_list_tables` call with correlation
identifier `"abc123"`), appends exactly three messages — the synthetic
tool-invocation request, the matching tool result, and the
`"Available tables: ..."` summary enumerating the table names — and always
routes to `call_get_schema`. -/
theorem c9_list_tables_node (llm : LLM) (ds : DataSource σ)
    (st : AgentState σ) (h : IdsOk st) :
    step llm ds .list_tables st =
      ({ messages := st.messages ++
          [ { role := .assistant, content := "",
              toolCalls := [{ name := "sql_db_list_tables", args := [],
                              callId := "abc123" }], msgId := st.nextId },
            { role := .tool,
              content := String.intercalate ", " (ds.tables st.dbState),
              toolCallId := "abc123", msgId := st.nextId + 1 },
            { role := .assistant,
              content := "Available tables: " ++
                String.intercalate ", " (ds.tables st.dbState),
              msgId := st.nextId + 2 } ],
         dbState := st.dbState, nextId := st.nextId + 3 },
       some .call_get_schema, [.toolExec listTablesCall]) := by
  show (stListTables ds st, some Node.call_get_schema,
    [Event.toolExec listTablesCall]) = _
  rw [stListTables_eq ds st h]
  rfl

/-- C9 witness: with tables `orders` and `customers`, the summary message
appended by `list_tables` enumerates both names exactly once. -/
theorem c9_witness :
    IdsOk (initState ({ orders := 5 } : ToyDB) "list the tables") ∧
    ((step llmDelete toyDS .list_tables
        (initState ({ orders := 5 } : ToyDB)
          "list the tables")).1.messages.getLastD default).content =
      "Available tables: orders, customers" :=
  ⟨by decide, by
    rw [c9_list_tables_node llmDelete toyDS
      (initState ({ orders := 5 } : ToyDB) "list the tables") (by decide)]
    rfl⟩

/-! ### SQL extraction -/

theorem sqlQueryStep_skip (l : List Message) :
    ∀ acc : Option String,
    (∀ x ∈ l, x.toolCalls.find? (fun tc => tc.name == "sql_db_query") =
      none) →
    l.foldl sqlQueryStep acc = acc := by
  induction l with
  | nil => intro acc _; rfl
  | cons a tl ih =>
    intro acc h
    rw [List.foldl_cons]
    have ha : sqlQueryStep acc a = acc := by
      unfold sqlQueryStep
      rw [h a (by simp)]
    rw [ha]
    exact ih acc (fun x hx => h x (by simp [hx]))

/-- C10: the executed-SQL field is the `query` argument of the first
`sql_db_query` tool call of the last message containing such a call (later
matching messages overwrite earlier ones, because only the inner loop over
one message's tool calls breaks), and it is absent when no message contains
a `sql_db_query` tool call. -/
theorem c10_extract_last_query (msgs pre post : List Message) (m : Message)
    (tc : ToolCall) (hsplit : msgs = pre ++ m :: post)
    (hfind : m.toolCalls.find? (fun tc => tc.name == "sql_db_query") =
      some tc)
    (hpost : ∀ x ∈ post,
      x.toolCalls.find? (fun tc => tc.name == "sql_db_query") = none) :
    extractSqlQuery msgs = tc.args.lookup "query" ∧
    ∀ msgs2 : List Message,
      (∀ x ∈ msgs2,
        x.toolCalls.find? (fun tc => tc.name == "sql_db_query") = none) →
      extractSqlQuery msgs2 = none := by
  constructor
  · unfold extractSqlQuery
    rw [hsplit, List.foldl_append, List.foldl_cons]
    have hstep : sqlQueryStep (pre.foldl sqlQueryStep none) m =
        tc.args.lookup "query" := by
      unfold sqlQueryStep
      rw [hfind]
    rw [hstep]
    exact sqlQueryStep_skip post _ hpost
  · intro msgs2 h2
    exact sqlQueryStep_skip msgs2 none h2

/-- C10 witness: with an earlier `SELECT 1` call and a later
`SELECT 2` call in separate messages, the later one wins; with no matching
call the field is absent. -/
theorem c10_witness :
    ([ { role := .assistant, content := "",
         toolCalls := [{ name := "sql_db_query",
                         args := [("query", "SELECT 1")], callId := "a" }],
         msgId := 1 },
       { role := .tool, content := "", toolCallId := "a", msgId := 2 },
       { role := .assistant, content := "",
         toolCalls := [{ name := "sql_db_query",
                         args := [("query", "SELECT 2")], callId := "b" }],
         msgId := 3 },
       { role := .tool, content := "", toolCallId := "b", msgId := 4 } ]
      : List Message) =
      [ { role := .assistant, content := "",
          toolCalls := [{ name := "sql_db_query",
                          args := [("query", "SELECT 1")], callId := "a" }],
          msgId := 1 },
        { role := .tool, content := "", toolCallId := "a", msgId := 2 } ] ++
        { role := .assistant, content := "",
          toolCalls := [{ name := "sql_db_query",
                          args := [("query", "SELECT 2")], callId := "b" }],
          msgId := 3 } ::
        [ { role := .tool, content := "", toolCallId := "b", msgId := 4 } ]
    ∧ extractSqlQuery
      [ { role := .assistant, content := "",
          toolCalls := [{ name := "sql_db_query",
                          args := [("query", "SELECT 1")], callId := "a" }],
          msgId := 1 },
        { role := .tool, content := "", toolCallId := "a", msgId := 2 },
        { role := .assistant, content := "",
          toolCalls := [{ name := "sql_db_query",
                          args := [("query", "SELECT 2")], callId := "b" }],
          msgId := 3 },
        { role := .tool, content := "", toolCallId := "b", msgId := 4 } ] =
      some "SELECT 2" := by
  constructor
  · rfl
  · have h := c10_extract_last_query _
      [ { role := .assistant, content := "",
          toolCalls := [{ name := "sql_db_query",
                          args := [("query", "SELECT 1")], callId := "a" }],
          msgId := 1 },
        { role := .tool, content := "", toolCallId := "a", msgId := 2 } ]
      [ { role := .tool, content := "", toolCallId := "b", msgId := 4 } ]
      { role := .assistant, content := "",
        toolCalls := [{ name := "sql_db_query",
                        args := [("query", "SELECT 2")], callId := "b" }],
        msgId := 3 }
      { name := "sql_db_query", args := [("query", "SELECT 2")],
        callId := "b" }
      rfl (by decide) (by decide)
    exact h.1

/-! ### Node-trace structure -/

theorem should_continue_cases (st : AgentState σ) :
    should_continue st = none ∨ should_continue st = some .check_query := by
  unfold should_continue
  split
  · exact Or.inl rfl
  · exact Or.inr rfl

theorem runTrace_loop_nodes (llm : LLM) (ds : DataSource σ) :
    ∀ (fuel : Nat) (n : Node) (st stf : AgentState σ) (evs : List Event)
      (ns : List Node),
    (n = Node.generate_query ∨ n = Node.check_query ∨ n = Node.run_query) →
    runTrace llm ds fuel n st = some (stf, evs, ns) →
    ∀ x ∈ ns, x = Node.generate_query ∨ x = Node.check_query ∨
      x = Node.run_query := by
  intro fuel
  induction fuel with
  | zero =>
    intro n st stf evs ns _ h
    rw [runTrace_zero] at h
    cases h
  | succ f ih =>
    intro n st stf evs ns hn h
    rcases hn with rfl | rfl | rfl
    · rcases should_continue_cases (stGenerate llm ds st) with hsc | hsc
      · rw [runTrace_gen_end llm ds f st hsc] at h
        simp only [Option.some.injEq, Prod.mk.injEq] at h
        obtain ⟨_, _, h3⟩ := h
        subst h3
        intro x hx
        simp only [List.mem_singleton] at hx
        subst hx
        exact Or.inl rfl
      · rw [runTrace_gen_go llm ds f st _ hsc] at h
        obtain ⟨rr, hrr, heq⟩ := Option.map_eq_some'.mp h
        have hns : Node.generate_query :: rr.2.2 = ns :=
          congrArg (fun r => r.2.2) heq
        intro x hx
        rw [← hns] at hx
        rcases List.mem_cons.mp hx with rfl | hx'
        · exact Or.inl rfl
        · exact ih .check_query _ rr.1 rr.2.1 rr.2.2
            (Or.inr (Or.inl rfl)) hrr x hx'
    · rw [runTrace_chk] at h
      obtain ⟨rr, hrr, heq⟩ := Option.map_eq_some'.mp h
      have hns : Node.check_query :: rr.2.2 = ns :=
        congrArg (fun r => r.2.2) heq
      intro x hx
      rw [← hns] at hx
      rcases List.mem_cons.mp hx with rfl | hx'
      · exact Or.inr (Or.inl rfl)
      · exact ih .run_query _ rr.1 rr.2.1 rr.2.2
          (Or.inr (Or.inr rfl)) hrr x hx'
    · rw [runTrace_rq] at h
      obtain ⟨rr, hrr, heq⟩ := Option.map_eq_some'.mp h
      have hns : Node.run_query :: rr.2.2 = ns :=
        congrArg (fun r => r.2.2) heq
      intro x hx
      rw [← hns] at hx
      rcases List.mem_cons.mp hx with rfl | hx'
      · exact Or.inr (Or.inr rfl)
      · exact ih .generate_query _ rr.1 rr.2.1 rr.2.2
          (Or.inl rfl) hrr x hx'

theorem runTrace_gen_head (llm : LLM) (ds : DataSource σ) (fuel : Nat)
    (st stf : AgentState σ) (evs : List Event) (ns : List Node)
    (h : runTrace llm ds fuel .generate_query st = some (stf, evs, ns)) :
    ∃ rest, ns = Node.generate_query :: rest := by
  cases fuel with
  | zero => rw [runTrace_zero] at h; cases h
  | succ f =>
    rcases should_continue_cases (stGenerate llm ds st) with hsc | hsc
    · rw [runTrace_gen_end llm ds f st hsc] at h
      simp only [Option.some.injEq, Prod.mk.injEq] at h
      exact ⟨[], h.2.2.symm⟩
    · rw [runTrace_gen_go llm ds f st _ hsc] at h
      obtain ⟨rr, hrr, heq⟩ := Option.map_eq_some'.mp h
      exact ⟨rr.2.2, (congrArg (fun r => r.2.2) heq).symm⟩

/-- C6: every completed fresh run visits `list_tables`,
`call_get_schema` and `get_schema` exactly once each, as the first three
nodes and in that order, before the first `generate_query`; all later
visits stay inside the `generate_query`/`check_query`/`run_query` cycle. -/
theorem c6_discovery_before_generation (llm : LLM) (ds : DataSource σ)
    (fuel : Nat) (s : σ) (q : String) (stf : AgentState σ)
    (evs : List Event) (ns : List Node)
    (hrun : runAgent llm ds fuel s q = some (stf, evs, ns)) :
    ns.count .list_tables = 1 ∧ ns.count .call_get_schema = 1 ∧
    ns.count .get_schema = 1 ∧
    ∃ rest, ns = [Node.list_tables, Node.call_get_schema, Node.get_schema,
        Node.generate_query] ++ rest ∧
      ∀ x ∈ rest, x = Node.generate_query ∨ x = Node.check_query ∨
        x = Node.run_query := by
  cases fuel with
  | zero => rw [runAgent, runTrace_zero] at hrun; cases hrun
  | succ f1 =>
  rw [runAgent, runTrace_lt] at hrun
  obtain ⟨r1, hr1, he1⟩ := Option.map_eq_some'.mp hrun
  cases f1 with
  | zero => rw [runTrace_zero] at hr1; cases hr1
  | succ f2 =>
  rw [runTrace_cgs] at hr1
  obtain ⟨r2, hr2, he2⟩ := Option.map_eq_some'.mp hr1
  cases f2 with
  | zero => rw [runTrace_zero] at hr2; cases hr2
  | succ f3 =>
  rw [runTrace_gs] at hr2
  obtain ⟨r3, hr3, he3⟩ := Option.map_eq_some'.mp hr2
  have hns1 : Node.list_tables :: r1.2.2 = ns :=
    congrArg (fun r => r.2.2) he1
  have hns2 : r1.2.2 = Node.call_get_schema :: r2.2.2 :=
    (congrArg (fun r => r.2.2) he2).symm
  have hns3 : r2.2.2 = Node.get_schema :: r3.2.2 :=
    (congrArg (fun r => r.2.2) he3).symm
  obtain ⟨rest, hrest⟩ := runTrace_gen_head llm ds f3 _ r3.1 r3.2.1 r3.2.2
    hr3
  have hloopmem : ∀ x ∈ r3.2.2, x = Node.generate_query ∨
      x = Node.check_query ∨ x = Node.run_query :=
    runTrace_loop_nodes llm ds f3 .generate_query _ r3.1 r3.2.1 r3.2.2
      (Or.inl rfl) hr3
  have hrestmem : ∀ x ∈ rest, x = Node.generate_query ∨
      x = Node.check_query ∨ x = Node.run_query := by
    intro x hx
    exact hloopmem x (by rw [hrest]; simp [hx])
  have hnsfull : ns = [Node.list_tables, Node.call_get_schema,
      Node.get_schema, Node.generate_query] ++ rest := by
    rw [← hns1, hns2, hns3, hrest]
    rfl
  have hcl : rest.count Node.list_tables = 0 := by
    rw [List.count_eq_zero]
    intro hmem
    rcases hrestmem _ hmem with hc | hc | hc <;> cases hc
  have hcc : rest.count Node.call_get_schema = 0 := by
    rw [List.count_eq_zero]
    intro hmem
    rcases hrestmem _ hmem with hc | hc | hc <;> cases hc
  have hcg : rest.count Node.get_schema = 0 := by
    rw [List.count_eq_zero]
    intro hmem
    rcases hrestmem _ hmem with hc | hc | hc <;> cases hc
  refine ⟨?_, ?_, ?_, rest, hnsfull, hrestmem⟩
  · rw [hnsfull]
    simp [List.count_cons, hcl]
  · rw [hnsfull]
    simp [List.count_cons, hcc]
  · rw [hnsfull]
    simp [List.count_cons, hcg]

/-- C6 witness: the concrete DML run's node trace is
`[list_tables, call_get_schema, get_schema, generate_query, check_query,
run_query, generate_query]`, satisfying the ordering and the counts. -/
theorem c6_witness :
    delNodes.count .list_tables = 1 ∧
    delNodes.count .call_get_schema = 1 ∧
    delNodes.count .get_schema = 1 ∧
    ∃ rest, delNodes = [Node.list_tables, Node.call_get_schema,
        Node.get_schema, Node.generate_query] ++ rest ∧
      ∀ x ∈ rest, x = Node.generate_query ∨ x = Node.check_query ∨
        x = Node.run_query :=
  c6_discovery_before_generation llmDelete toyDS 10 { orders := 5 }
    "delete all my orders" delFinal delEvents delNodes rfl

/-! ### Unbounded loop -/

theorem exists_concat_of_ne_nil {l : List Message} (h : l ≠ []) :
    ∃ pre m, l = pre ++ [m] := by
  rcases List.eq_nil_or_concat l with rfl | ⟨L, b, rfl⟩
  · exact absurd rfl h
  · exact ⟨L, b, by simp⟩

theorem llmLoop_no_end (ds : DataSource σ) :
    ∀ fuel : Nat,
    (∀ st : AgentState σ, IdsOk st →
      runTrace llmLoop ds fuel .generate_query st = none) ∧
    (∀ st : AgentState σ, IdsOk st → (∃ pre m, st.messages = pre ++ [m]) →
      runTrace llmLoop ds fuel .check_query st = none) ∧
    (∀ st : AgentState σ, IdsOk st →
      runTrace llmLoop ds fuel .run_query st = none) := by
  intro fuel
  induction fuel with
  | zero => exact ⟨fun _ _ => rfl, fun _ _ _ => rfl, fun _ _ => rfl⟩
  | succ f ih =>
    refine ⟨?_, ?_, ?_⟩
    · intro st hids
      have hsc : should_continue (stGenerate llmLoop ds st) =
          some .check_query := by
        rw [should_continue_generate llmLoop ds st hids]
        rfl
      rw [runTrace_gen_go llmLoop ds f st _ hsc]
      rw [ih.2.1 (stGenerate llmLoop ds st)
        (stGenerate_ok llmLoop ds st hids)
        ⟨st.messages, generate_query llmLoop ds st,
          by rw [stGenerate_eq llmLoop ds st hids]⟩]
      rfl
    · intro st hids hpm
      obtain ⟨pre, m, hm⟩ := hpm
      rw [runTrace_chk]
      rw [ih.2.2 (stCheck llmLoop ds st)
        (stCheck_ok llmLoop ds st pre m hids hm)]
      rfl
    · intro st hids
      rw [runTrace_rq]
      rw [ih.1 (stRunQuery ds st) (stRunQuery_ok ds st hids)]
      rfl

/-- C4: for the concrete model `llmLoop`, every response contains a tool
invocation; under it the conditional edge out of `generate_query` always
routes to `check_query`, the edges `check_query → run_query` and
`run_query → generate_query` are unconditional, and no amount of fuel
completes a run: the loop cycles through the three nodes indefinitely —
the graph enforces no iteration cap. -/
theorem c4_no_iteration_cap (ds : DataSource σ) :
    (∀ (tools : List String) (forced : Bool) (msgs : List Message),
      (llmLoop tools forced msgs).toolCalls ≠ []) ∧
    (∀ st : AgentState σ, IdsOk st →
      (step llmLoop ds .generate_query st).2.1 = some .check_query) ∧
    (∀ st : AgentState σ,
      (step llmLoop ds .check_query st).2.1 = some .run_query) ∧
    (∀ st : AgentState σ,
      (step llmLoop ds .run_query st).2.1 = some .generate_query) ∧
    (∀ (fuel : Nat) (s : σ) (q : String),
      runAgent llmLoop ds fuel s q = none) := by
  refine ⟨?_, ?_, fun _ => rfl, fun _ => rfl, ?_⟩
  · intro tools forced msgs h
    simp [llmLoop] at h
  · intro st hids
    show should_continue (stGenerate llmLoop ds st) = some .check_query
    rw [should_continue_generate llmLoop ds st hids]
    rfl
  · intro fuel s q
    cases fuel with
    | zero => rfl
    | succ f1 =>
    rw [runAgent, runTrace_lt]
    cases f1 with
    | zero => rw [runTrace_zero]; rfl
    | succ f2 =>
    rw [runTrace_cgs]
    cases f2 with
    | zero => rw [runTrace_zero]; rfl
    | succ f3 =>
    rw [runTrace_gs]
    have hids2 : IdsOk (stCallGetSchema llmLoop
        (stListTables ds (initState s q))) :=
      stCallGetSchema_ok llmLoop _ (stListTables_ok ds _ (initState_ok s q))
    rw [(llmLoop_no_end ds f3).1 _ (stGetSchema_ok ds _ hids2)]
    rfl

/-- C4 witness: with the toy data source, one hundred fuel units do not
finish a run, and from any well-formed state `generate_query` routes on to
`check_query`. -/
theorem c4_witness :
    runAgent llmLoop toyDS 100 ({ orders := 5 } : ToyDB) "loop forever" =
      none ∧
    (step llmLoop toyDS .generate_query
      (initState ({ orders := 5 } : ToyDB) "loop forever")).2.1 =
      some .check_query :=
  ⟨(c4_no_iteration_cap toyDS).2.2.2.2 100 { orders := 5 } "loop forever",
   (c4_no_iteration_cap toyDS).2.1
     (initState ({ orders := 5 } : ToyDB) "loop forever") (by decide)⟩

/-! ### Determinism of the transition system -/

theorem stepR_of_step (llm : LLM) (ds : DataSource σ) (n : Node)
    (st st' : AgentState σ) (nx : Option Node) (evs : List Event)
    (h : step llm ds n st = (st', nx, evs)) :
    StepR llm ds n st st' nx evs := by
  cases n <;>
    (simp only [step, Prod.mk.injEq] at h
     obtain ⟨h1, h2, h3⟩ := h
     subst h1; subst h2; subst h3
     constructor)

theorem runR_of_runTrace (llm : LLM) (ds : DataSource σ) :
    ∀ (fuel : Nat) (n : Node) (st stf : AgentState σ) (evs : List Event)
      (ns : List Node),
    runTrace llm ds fuel n st = some (stf, evs, ns) →
    RunR llm ds n st stf evs ns := by
  intro fuel
  induction fuel with
  | zero =>
    intro n st stf evs ns h
    rw [runTrace_zero] at h
    cases h
  | succ f ih =>
    intro n st stf evs ns h
    rcases hstep : step llm ds n st with ⟨st', nx, evs0⟩
    have hR := stepR_of_step llm ds n st st' nx evs0 hstep
    simp only [runTrace] at h
    rw [hstep] at h
    cases nx with
    | none =>
      simp only [Option.some.injEq, Prod.mk.injEq] at h
      obtain ⟨h1, h2, h3⟩ := h
      subst h1; subst h2; subst h3
      exact RunR.done hR
    | some n' =>
      simp only [] at h
      obtain ⟨rr, hrr, heq⟩ := Option.map_eq_some'.mp h
      have h1 : rr.1 = stf := congrArg (fun r => r.1) heq
      have h2 : evs0 ++ rr.2.1 = evs := congrArg (fun r => r.2.1) heq
      have h3 : n :: rr.2.2 = ns := congrArg (fun r => r.2.2) heq
      subst h1; subst h2; subst h3
      exact RunR.more hR (ih n' st' rr.1 rr.2.1 rr.2.2 hrr)

theorem stepR_deterministic (llm : LLM) (ds : DataSource σ) {n : Node}
    {st st1 st2 : AgentState σ} {nx1 nx2 : Option Node}
    {evs1 evs2 : List Event}
    (h1 : StepR llm ds n st st1 nx1 evs1)
    (h2 : StepR llm ds n st st2 nx2 evs2) :
    st1 = st2 ∧ nx1 = nx2 ∧ evs1 = evs2 := by
  cases h1 <;> cases h2 <;> exact ⟨rfl, rfl, rfl⟩

theorem runR_deterministic (llm : LLM) (ds : DataSource σ) :
    ∀ {n : Node} {st stf1 stf2 : AgentState σ} {evs1 evs2 : List Event}
      {ns1 ns2 : List Node},
    RunR llm ds n st stf1 evs1 ns1 → RunR llm ds n st stf2 evs2 ns2 →
    stf1 = stf2 ∧ evs1 = evs2 ∧ ns1 = ns2 := by
  intro n st stf1 stf2 evs1 evs2 ns1 ns2 h1 h2
  induction h1 generalizing stf2 evs2 ns2 with
  | done hs1 =>
    cases h2 with
    | done hs2 =>
      obtain ⟨ha, _, hc⟩ := stepR_deterministic llm ds hs1 hs2
      exact ⟨ha, hc, rfl⟩
    | more hs2 hrun2 =>
      obtain ⟨_, hb, _⟩ := stepR_deterministic llm ds hs1 hs2
      cases hb
  | more hs1 hrun1 ih =>
    cases h2 with
    | done hs2 =>
      obtain ⟨_, hb, _⟩ := stepR_deterministic llm ds hs1 hs2
      cases hb
    | more hs2 hrun2 =>
      obtain ⟨ha, hb, hc⟩ := stepR_deterministic llm ds hs1 hs2
      injection hb with hb'
      subst hb'
      subst ha
      subst hc
      obtain ⟨hx, hy, hz⟩ := ih hrun2
      exact ⟨hx, by rw [hy], by rw [hz]⟩

/-- C8: for a fixed deterministic model and data source, any two complete
executions of the graph from the same initial user message traverse the
same tool invocations in the same order, visit the same node sequence,
and end in the same state: the state-transition sequence is reproducible
across runs. -/
theorem c8_runs_reproducible (llm : LLM) (ds : DataSource σ) (s : σ)
    (q : String) {stf1 stf2 : AgentState σ} {evs1 evs2 : List Event}
    {ns1 ns2 : List Node}
    (h1 : RunR llm ds .list_tables (initState s q) stf1 evs1 ns1)
    (h2 : RunR llm ds .list_tables (initState s q) stf2 evs2 ns2) :
    toolCallsOf evs1 = toolCallsOf evs2 ∧ ns1 = ns2 ∧ stf1 = stf2 := by
  obtain ⟨ha, hb, hc⟩ := runR_deterministic llm ds h1 h2
  exact ⟨by rw [hb], hc, ha⟩

/-- C8 witness: the concrete DML run, executed twice, yields the same tool
invocations, node trace and final state. -/
theorem c8_witness :
    toolCallsOf delEvents = toolCallsOf delEvents ∧
    delNodes = delNodes ∧ delFinal = delFinal :=
  c8_runs_reproducible llmDelete toyDS { orders := 5 }
    "delete all my orders"
    (runR_of_runTrace llmDelete toyDS 10 .list_tables
      (initState { orders := 5 } "delete all my orders")
      delFinal delEvents delNodes rfl)
    (runR_of_runTrace llmDelete toyDS 10 .list_tables
      (initState { orders := 5 } "delete all my orders")
      delFinal delEvents delNodes rfl)

/-- C5 witness: the concrete DML run satisfies the freshness hypothesis
(identifiers `abc123`, `s1`, `t1`, `t2` are pairwise distinct), and both
its final conversation and all five conversations handed to the model
satisfy the pairing invariant. -/
theorem c5_witness :
    ("abc123" :: responseCallIds delEvents).Nodup ∧
    (oneResultEach delFinal.messages ∧
      ∀ input ∈ modelInputs delEvents, oneResultEach input) :=
  ⟨by decide,
   c5_tool_requests_paired llmDelete toyDS 10 { orders := 5 }
     "delete all my orders" delFinal delEvents delNodes rfl (by decide)⟩

/-! ### DML is not rejected -/

/-- C1 counterexample: in the concrete run `delRun` the model submits the
candidate `DELETE FROM orders` through the loop; the Executor performs no
statement-kind check — the DML statement is executed (its tool execution
appears in the event trace with correlation id `t2`), the run completes,
and the `orders` row count drops from 5 to 0: execution is not rejected
and row counts are not preserved. -/
theorem c1_counterexample :
    isDML "DELETE FROM orders" = true ∧
    ({ name := "sql_db_query", args := [("query", "DELETE FROM orders")],
       callId := "t2" } : ToolCall) ∈ toolCallsOf delEvents ∧
    (initState ({ orders := 5 } : ToyDB)
      "delete all my orders").dbState.orders = 5 ∧
    delFinal.dbState.orders = 0 ∧
    delRun.isSome = true :=
  ⟨by decide, by decide, rfl, rfl, rfl⟩

/-- C1 amended: the Executor is a pass-through — whatever query text the
checked tool call carries (DML included) is handed verbatim to the data
source's `exec`, whose new state and answer text become the loop's state
and the tool result; the INSERT/UPDATE/DELETE/DROP prohibition exists only
as a sentence of the generate-query system prompt. -/
theorem c1_dml_not_enforced (llm : LLM) (ds : DataSource σ)
    (st : AgentState σ) (pre : List Message) (m : Message) (q cid : String)
    (h : IdsOk st) (hm : st.messages = pre ++ [m])
    (hcall : m.toolCalls =
      [{ name := "sql_db_query", args := [("query", q)], callId := cid }]) :
    ((step llm ds .run_query st).1.dbState = (ds.exec st.dbState q).1 ∧
     (step llm ds .run_query st).1.messages = st.messages ++
       [{ role := .tool, content := (ds.exec st.dbState q).2,
          toolCallId := cid, msgId := st.nextId }]) ∧
    generateQuerySystemPrompt ds.dialect =
      genPromptHead ++ ds.dialect ++ genPromptMid ++
        dmlProhibitionSentence ++ "\n" := by
  have h1 := run_query_exec llm ds st pre m q cid h hm hcall
  exact ⟨⟨congrArg (fun r => r.1.dbState) h1,
    congrArg (fun r => r.1.messages) h1⟩, rfl⟩

/-- C1 witness for the amended claim: executing the checked
`DELETE FROM orders` empties the `orders` table — the data source state
after the step is `{ orders := 0 }`. -/
theorem c1_witness :
    IdsOk c1State ∧
    (((step llmDelete toyDS .run_query c1State).1.dbState =
        ({ orders := 0 } : ToyDB) ∧
      (step llmDelete toyDS .run_query c1State).1.messages =
        c1State.messages ++
          [{ role := .tool, content := "", toolCallId := "t2",
             msgId := 2 }]) ∧
     generateQuerySystemPrompt toyDS.dialect =
       genPromptHead ++ toyDS.dialect ++ genPromptMid ++
         dmlProhibitionSentence ++ "\n") :=
  ⟨by decide,
   c1_dml_not_enforced llmDelete toyDS c1State
     [{ role := .user, content := "delete all my orders", msgId := 0 }]
     { role := .assistant, content := "",
       toolCalls := [{ name := "sql_db_query",
                       args := [("query", "DELETE FROM orders")],
                       callId := "t2" }],
       msgId := 1 }
     "DELETE FROM orders" "t2" (by decide) rfl rfl⟩

/-! ### Correlation identifiers at the check step -/

/-- C2 counterexample: with a model whose check response mints the fresh
tool-call identifier `t2`, the corrected query message replacing the
candidate (same message id 1) carries the pairing identifier `t2`, not the
candidate's `t1`; the subsequent tool result pairs with `t2`, and no
message of the final conversation ever carries `t1` — the corrected query
does not carry the identifier that pairs a tool-invocation request with
its result message. -/
theorem c2_counterexample :
    (c2State.messages.getLastD default).toolCalls.map
      (fun tc => tc.callId) = ["t1"] ∧
    (c2Checked.messages.getLastD default).msgId =
      (c2State.messages.getLastD default).msgId ∧
    (c2Checked.messages.getLastD default).toolCalls.map
      (fun tc => tc.callId) = ["t2"] ∧
    ("t1" : String) ≠ "t2" ∧
    (c2Final.messages.getLastD default).toolCallId = "t2" ∧
    ∀ x ∈ c2Final.messages, x.toolCallId ≠ "t1" :=
  ⟨by decide, by decide, by decide, by decide, by decide, by decide⟩

/-- C2 amended: the identifier the successful `CheckQuery` step copies from
the candidate onto its result is the candidate's message identifier
(`response.id = state["messages"][-1].id`), which is what makes the new
message supersede the candidate under the reducer; the tool-call
correlation identifier of the new invocation is whatever the model minted
and is not copied. -/
theorem c2_message_id_reused (llm : LLM) (ds : DataSource σ)
    (st : AgentState σ) (pre : List Message) (cand : Message)
    (h : IdsOk st) (hm : st.messages = pre ++ [cand]) :
    (step llm ds .check_query st).1.messages =
      pre ++ [check_query llm ds st] ∧
    (check_query llm ds st).msgId = cand.msgId ∧
    (check_query llm ds st).toolCalls =
      (llm ["sql_db_query"] true (checkInput ds st)).toolCalls := by
  refine ⟨?_, check_query_msgId llm ds st pre cand hm, rfl⟩
  show (stCheck llm ds st).messages = _
  rw [stCheck_eq llm ds st pre cand h hm]

/-- C2 witness for the amended claim, at the concrete `c2State`
scenario. -/
theorem c2_witness :
    IdsOk c2State ∧
    ((step llmCheckFresh toyDS .check_query c2State).1.messages =
      [{ role := .user, content := "one row please", msgId := 0 }] ++
        [check_query llmCheckFresh toyDS c2State] ∧
     (check_query llmCheckFresh toyDS c2State).msgId = 1 ∧
     (check_query llmCheckFresh toyDS c2State).toolCalls =
       (llmCheckFresh ["sql_db_query"] true
         (checkInput toyDS c2State)).toolCalls) :=
  ⟨by decide,
   c2_message_id_reused llmCheckFresh toyDS c2State
     [{ role := .user, content := "one row please", msgId := 0 }]
     { role := .assistant, content := "",
       toolCalls := [{ name := "sql_db_query",
                       args := [("query", "SELECT 1")], callId := "t1" }],
       msgId := 1 }
     (by decide) rfl⟩
